import Mathlib

/-!
Verification of the transaction ingestion-and-normalization pipeline and the
polymorphic account ledger model of the INST326 Financial Transaction
Analytics System.

Python strings are modelled as lists of Unicode code points (`List Nat`);
the case mappings (`lower`, `upper`, `title`) are modelled on the ASCII
range, which covers every string constant appearing in the cleaning code.
Python numbers are modelled as exact rationals.
-/

namespace FinTracker

/-- A Python string, as its list of code points. -/
abbrev PyStr := List Nat

/-- Convert a Lean string literal to its code-point list. -/
def litS (s : String) : PyStr := s.data.map Char.toNat

/-- Python `str.isspace` for a single code point (ASCII whitespace). -/
def isSpace (c : Nat) : Bool := c == 32 || (9 ≤ c && c ≤ 13)

/-- ASCII decimal digit test, as in Python `str.isdigit` on ASCII input. -/
def isDigit (c : Nat) : Bool := 48 ≤ c && c ≤ 57

/-- Drop the trailing whitespace run. -/
def dropTrailSpace (s : PyStr) : PyStr :=
  s.foldr (fun c acc => if isSpace c && acc.isEmpty then [] else c :: acc) []

/-- Python `str.strip()`: drop leading and trailing whitespace. -/
def strip (s : PyStr) : PyStr := dropTrailSpace (s.dropWhile isSpace)

/-- A Python scalar value stored in a raw record: a string, a number, or None. -/
inductive Value where
  | str (s : PyStr)
  | num (q : ℚ)
  | none
deriving DecidableEq

/-- Digits of a natural number, as code points. -/
def natRepr (n : Nat) : PyStr := (Nat.toDigits 10 n).map Char.toNat

/-- Decimal rendering of an integer, as code points. -/
def intRepr (i : ℤ) : PyStr :=
  if i < 0 then 45 :: natRepr i.natAbs else natRepr i.natAbs

/-- Rendering of a rational for `str()`. Integers are rendered exactly; a
non-integer is rendered as numerator `/` denominator. The claims never
exercise `str()` of a non-integer number, so only the integer case matters. -/
def numRepr (q : ℚ) : PyStr :=
  if q.den = 1 then intRepr q.num else intRepr q.num ++ 47 :: natRepr q.den

/-- Python `str()` of a stored value. -/
def pyStrOf : Value → PyStr
  | .str s => s
  | .num q => numRepr q
  | .none => litS "None"

/-- Python truthiness of a stored value (used by `or` fallbacks). -/
def pyFalsy : Value → Bool
  | .str s => s.isEmpty
  | .num q => q == 0
  | .none => true

/-- A raw record: a dict from field names to scalar values, in insertion
order. Realizable Python dicts have pairwise distinct keys. -/
abbrev Rec := List (String × Value)

/-- Python `row.get(k)`: the value at the first occurrence of `k`. -/
def getKey : Rec → String → Option Value
  | [], _ => Option.none
  | (k', v) :: rest, k => if k' = k then some v else getKey rest k

/-- Python `k in row`. -/
def hasKey (r : Rec) (k : String) : Bool := (getKey r k).isSome

/-- Python `row.get(k1, row.get(k2))`. -/
def get2 (r : Rec) (k₁ k₂ : String) : Option Value :=
  match getKey r k₁ with
  | some v => some v
  | Option.none => getKey r k₂

/-- Python `row.get(k1, row.get(k2, row.get(k3)))`. -/
def get3 (r : Rec) (k₁ k₂ k₃ : String) : Option Value :=
  match getKey r k₁ with
  | some v => some v
  | Option.none => get2 r k₂ k₃

/-- Python dict assignment `row[k] = v`: replace the value in place when the
key exists (keeping its position), else append the pair. -/
def setKey (r : Rec) (k : String) (v : Value) : Rec :=
  if hasKey r k then r.map (fun p => if p.1 = k then (k, v) else p)
  else r ++ [(k, v)]

/-- Python `row.pop(k, None)`: remove the key if present. -/
def eraseKey (r : Rec) (k : String) : Rec := r.filter (fun p => p.1 ≠ k)

/-! ## Dates: the subset of `datetime.strptime` used by the cleaner

CPython's `_strptime` matches `%Y` as exactly four digits, `%m` as
`1[0-2]|0[1-9]|[1-9]` and `%d` as `3[01]|[12]\d|0[1-9]|[1-9]`, each group
delimited by the literal separator, and then `datetime()` validates the day
against the month length. -/

structure Date where
  year : Nat
  month : Nat
  day : Nat
deriving DecidableEq

def isLeapYear (y : Nat) : Bool :=
  (y % 4 == 0 && y % 100 != 0) || y % 400 == 0

def daysInMonth (y m : Nat) : Nat :=
  if m = 2 then (if isLeapYear y then 29 else 28)
  else if m = 4 ∨ m = 6 ∨ m = 9 ∨ m = 11 then 30
  else 31

/-- The `datetime` constructor check (`MINYEAR = 1`, `MAXYEAR = 9999`). -/
def validDate (dt : Date) : Bool :=
  1 ≤ dt.year && dt.year ≤ 9999 && 1 ≤ dt.month && dt.month ≤ 12 &&
    1 ≤ dt.day && dt.day ≤ daysInMonth dt.year dt.month

def digitVal (c : Nat) : Nat := c - 48

/-- The `%Y` group: exactly four digits. -/
def year4? : PyStr → Option Nat
  | [a, b, c, d] =>
    if isDigit a && isDigit b && isDigit c && isDigit d then
      some (digitVal a * 1000 + digitVal b * 100 + digitVal c * 10 + digitVal d)
    else Option.none
  | _ => Option.none

/-- The `%m` group: `1[0-2]|0[1-9]|[1-9]` taken against a whole
separator-free group. -/
def monthGroup? : PyStr → Option Nat
  | [a] => if isDigit a && a != 48 then some (digitVal a) else Option.none
  | [a, b] =>
    if isDigit a && isDigit b then
      let v := digitVal a * 10 + digitVal b
      if 1 ≤ v ∧ v ≤ 12 then some v else Option.none
    else Option.none
  | _ => Option.none

/-- The `%d` group: `3[01]|[12]\d|0[1-9]|[1-9]` taken against a whole
separator-free group. -/
def dayGroup? : PyStr → Option Nat
  | [a] => if isDigit a && a != 48 then some (digitVal a) else Option.none
  | [a, b] =>
    if isDigit a && isDigit b then
      let v := digitVal a * 10 + digitVal b
      if 1 ≤ v ∧ v ≤ 31 then some v else Option.none
    else Option.none
  | _ => Option.none

/-- Split a string at every occurrence of a separator code point
(Python `s.split(sep)`): always returns at least one group. -/
def splitSep (sep : Nat) : PyStr → List PyStr
  | [] => [[]]
  | c :: cs =>
    if c = sep then [] :: splitSep sep cs
    else
      match splitSep sep cs with
      | [] => [[c]]
      | g :: gs => (c :: g) :: gs

/-- The four formats tried by `normalize_date_format`, in order. -/
inductive DFmt where
  | ymdDash
  | ymdSlash
  | mdySlash
  | mdyDash
deriving DecidableEq

/-- `datetime.strptime(s, fmt)` for the four supported formats: the groups
are matched against the separator-split string, then `datetime()` validates
the components. -/
def buildDate (y? m? d? : Option Nat) : Option Date :=
  match y?, m?, d? with
  | some y, some m, some d =>
    let dt : Date := ⟨y, m, d⟩
    if validDate dt then some dt else Option.none
  | _, _, _ => Option.none

def strptime (fmt : DFmt) (s : PyStr) : Option Date :=
  match fmt with
  | .ymdDash =>
    match splitSep 45 s with
    | [a, b, c] => buildDate (year4? a) (monthGroup? b) (dayGroup? c)
    | _ => Option.none
  | .ymdSlash =>
    match splitSep 47 s with
    | [a, b, c] => buildDate (year4? a) (monthGroup? b) (dayGroup? c)
    | _ => Option.none
  | .mdySlash =>
    match splitSep 47 s with
    | [a, b, c] => buildDate (year4? c) (monthGroup? a) (dayGroup? b)
    | _ => Option.none
  | .mdyDash =>
    match splitSep 45 s with
    | [a, b, c] => buildDate (year4? c) (monthGroup? a) (dayGroup? b)
    | _ => Option.none

/-- The ordered format list of `normalize_date_format`. -/
def dateFormats : List DFmt := [.ymdDash, .ymdSlash, .mdySlash, .mdyDash]

/-- The first-match-wins loop over the format list. -/
def tryFormats : List DFmt → PyStr → Option Date
  | [], _ => Option.none
  | f :: fs, s =>
    match strptime f s with
    | some dt => some dt
    | Option.none => tryFormats fs s

def pad2 (n : Nat) : PyStr := [48 + n / 10 % 10, 48 + n % 10]

def pad4 (n : Nat) : PyStr :=
  [48 + n / 1000 % 10, 48 + n / 100 % 10, 48 + n / 10 % 10, 48 + n % 10]

/-- `parsed.strftime(%Y-%m-%d)` with zero padding. -/
def formatIso (dt : Date) : PyStr :=
  pad4 dt.year ++ 45 :: (pad2 dt.month ++ 45 :: pad2 dt.day)

/-- Error classes raised by the cleaning functions. -/
inductive CleanErr where
  | keyErr (msg : String)
  | valueErr (msg : String)
  | typeErr (msg : String)
deriving DecidableEq

/-- `normalize_date_format` from `library_name.py`: normalize
`row[date]` (or `Date`) to ISO `YYYY-MM-DD`, removing the capitalized key. -/
def normalize_date_format (row : Rec) : Except CleanErr Rec :=
  match get2 row "date" "Date" with
  | Option.none => .error (.keyErr "expected key date or Date")
  | some Value.none => .error (.valueErr "date value is None")
  | some raw =>
    let s := strip (pyStrOf raw)
    if s = [] then .error (.valueErr "date cannot be empty")
    else
      match tryFormats dateFormats s with
      | Option.none => .error (.valueErr "unsupported date format")
      | some dt =>
        .ok (eraseKey (setKey row "date" (.str (formatIso dt))) "Date")

/-! ## Description cleaning -/

/-- Split into maximal whitespace-free groups, possibly empty at the
boundaries; Python `str.split()` is the non-empty groups. -/
def groupSplit : PyStr → List PyStr
  | [] => [[]]
  | c :: cs =>
    if isSpace c then [] :: groupSplit cs
    else
      match groupSplit cs with
      | [] => [[c]]
      | g :: gs => (c :: g) :: gs

/-- Python `str.split()` with no argument: whitespace runs, empties dropped. -/
def splitWS (s : PyStr) : List PyStr := (groupSplit s).filter (fun g => !g.isEmpty)

/-- Python `" ".join(ws)`. -/
def joinSpace (ws : List PyStr) : PyStr := List.intercalate [32] ws

/-- The trailing-token heuristic of `clean_transaction_description`: drop the
last token when it has at least three digits, starts with `#`, or contains a
hyphen. -/
def stripTrailingCode (tokens : List PyStr) : List PyStr :=
  match tokens.getLast? with
  | Option.none => tokens
  | some last =>
    let isCode :=
      last.countP isDigit ≥ 3 ||
      (match last with
       | c :: _ => c == 35
       | [] => false) ||
      last.contains 45
    if isCode then tokens.dropLast else tokens

/-- `clean_transaction_description` from `library_name.py`. -/
def clean_transaction_description (row : Rec) : Except CleanErr Rec :=
  match get3 row "description" "Description" "source" with
  | Option.none => .error (.keyErr "expected description or Description or source")
  | some raw =>
    let s := joinSpace (splitWS (strip (pyStrOf raw)))
    if s = [] then .error (.valueErr "description cannot be empty")
    else
      let tokens := splitSep 32 s
      let cleaned := strip (joinSpace (stripTrailingCode tokens))
      if cleaned = [] then .error (.valueErr "description became empty after cleaning")
      else
        .ok (eraseKey (eraseKey (setKey row "description" (.str cleaned)) "Description") "source")

/-! ## Category standardization -/

def asciiLower (c : Nat) : Nat := if 65 ≤ c ∧ c ≤ 90 then c + 32 else c

def asciiUpper (c : Nat) : Nat := if 97 ≤ c ∧ c ≤ 122 then c - 32 else c

def isAlphaN (c : Nat) : Bool := (65 ≤ c && c ≤ 90) || (97 ≤ c && c ≤ 122)

/-- Python `str.lower()` (ASCII model). -/
def lowerS (s : PyStr) : PyStr := s.map asciiLower

/-- Python `str.title()` (ASCII model): uppercase a letter that does not
follow a letter, lowercase the other letters. -/
def titleGo (prevCased : Bool) : PyStr → PyStr
  | [] => []
  | c :: cs =>
    if isAlphaN c then
      (if prevCased then asciiLower c else asciiUpper c) :: titleGo true cs
    else c :: titleGo false cs

def titleS (s : PyStr) : PyStr := titleGo false s

/-- Is `pat` a prefix of `s`? -/
def prefixN : PyStr → PyStr → Bool
  | [], _ => true
  | _ :: _, [] => false
  | a :: xs, b :: ys => a == b && prefixN xs ys

/-- Python `pat in s`: substring containment. -/
def containsSub (pat : PyStr) : PyStr → Bool
  | [] => prefixN pat []
  | c :: cs => prefixN pat (c :: cs) || containsSub pat cs

/-- The exact-match synonym table of `standardize_category_names`. -/
def categoryMapping : List (PyStr × PyStr) :=
  [(litS "subscription", litS "Subscription"), (litS "subscriptions", litS "Subscription"),
   (litS "subs", litS "Subscription"), (litS "subscr", litS "Subscription"),
   (litS "bill", litS "Bills"), (litS "bills", litS "Bills"),
   (litS "food", litS "Food"), (litS "dining", litS "Food"), (litS "restaurant", litS "Food"),
   (litS "coffee", litS "Food"), (litS "cafe", litS "Food"), (litS "cafes", litS "Food"),
   (litS "groceries", litS "Groceries"), (litS "grocery", litS "Groceries"),
   (litS "entertainment", litS "Entertainment"),
   (litS "transport", litS "Transportation"), (litS "transportation", litS "Transportation"),
   (litS "uber", litS "Transportation"), (litS "lyft", litS "Transportation"),
   (litS "gas", litS "Transportation"), (litS "fuel", litS "Transportation"),
   (litS "utilities", litS "Utilities"), (litS "internet", litS "Utilities"),
   (litS "electric", litS "Utilities"), (litS "water", litS "Utilities"),
   (litS "health", litS "Healthcare"), (litS "healthcare", litS "Healthcare"),
   (litS "shopping", litS "Shopping"), (litS "retail", litS "Shopping"),
   (litS "debt", litS "Debt"), (litS "loan", litS "Debt"),
   (litS "income", litS "Income"), (litS "salary", litS "Income"),
   (litS "other", litS "Other")]

def lookupMapping (s : PyStr) : Option PyStr :=
  (categoryMapping.find? (fun p => p.1 == s)).map (fun p => p.2)

/-- The category decision of `standardize_category_names`: the exact table,
then the substring-containment chain, then the title-cased raw value. -/
def stdOf (s : PyStr) (raw : Value) : PyStr :=
  match lookupMapping s with
  | some v => v
  | Option.none =>
    if containsSub (litS "subscr") s then litS "Subscription"
    else if containsSub (litS "groc") s then litS "Groceries"
    else if containsSub (litS "restaur") s || containsSub (litS "dining") s ||
        containsSub (litS "cafe") s || containsSub (litS "coffee") s ||
        containsSub (litS "food") s then litS "Food"
    else if containsSub (litS "transport") s || containsSub (litS "uber") s ||
        containsSub (litS "lyft") s || containsSub (litS "gas") s ||
        containsSub (litS "fuel") s then litS "Transportation"
    else if containsSub (litS "utilit") s || containsSub (litS "internet") s ||
        containsSub (litS "electric") s || containsSub (litS "water") s then litS "Utilities"
    else if containsSub (litS "retail") s || containsSub (litS "shop") s then litS "Shopping"
    else if containsSub (litS "health") s || containsSub (litS "care") s then litS "Healthcare"
    else if containsSub (litS "loan") s || containsSub (litS "debt") s then litS "Debt"
    else if containsSub (litS "salary") s || containsSub (litS "pay") s ||
        containsSub (litS "income") s then litS "Income"
    else titleS (strip (pyStrOf raw))

/-- `standardize_category_names` from `library_name.py`. -/
def standardize_category_names (row : Rec) : Except CleanErr Rec :=
  match get2 row "category" "Category" with
  | Option.none => .error (.keyErr "expected category or Category")
  | some raw =>
    let s := lowerS (strip (pyStrOf raw))
    if s = [] then .error (.valueErr "category cannot be empty")
    else .ok (eraseKey (setKey row "category" (.str (stdOf s raw))) "Category")

/-! ## Amount parsing and the deduplication key -/

def natOfDigits (ds : PyStr) : Nat := ds.foldl (fun acc c => acc * 10 + digitVal c) 0

/-- The optional exponent tail of a float literal; `Option.none` when the
remainder is not a valid (possibly empty) exponent. -/
def parseExp : PyStr → Option ℤ
  | [] => some 0
  | c :: rest =>
    if c = 101 ∨ c = 69 then
      let (sgn, ds) :=
        match rest with
        | 43 :: r => ((1 : ℤ), r)
        | 45 :: r => ((-1 : ℤ), r)
        | r => ((1 : ℤ), r)
      if ds ≠ [] ∧ ds.all isDigit then some (sgn * natOfDigits ds) else Option.none
    else Option.none

/-- Python `float()` on a stripped string: sign, digits with an optional
point, optional exponent (`inf`, `nan` and digit underscores are outside the
model). -/
def parseFloat? (s : PyStr) : Option ℚ :=
  let (sgn, rest) :=
    match s with
    | 43 :: r => ((1 : ℚ), r)
    | 45 :: r => ((-1 : ℚ), r)
    | r => ((1 : ℚ), r)
  let ip := rest.takeWhile isDigit
  let rest2 := rest.dropWhile isDigit
  match rest2 with
  | 46 :: rest3 =>
    let fp := rest3.takeWhile isDigit
    let rest4 := rest3.dropWhile isDigit
    if ip = [] ∧ fp = [] then Option.none
    else do
      let e ← parseExp rest4
      some (sgn * (natOfDigits ip + (natOfDigits fp : ℚ) / 10 ^ fp.length) * (10 : ℚ) ^ e)
  | _ =>
    if ip = [] then Option.none
    else do
      let e ← parseExp rest2
      some (sgn * (natOfDigits ip : ℚ) * (10 : ℚ) ^ e)

/-- Python `float()` on a stored value; `Option.none` when it raises. -/
def pyFloat? : Value → Option ℚ
  | .num q => some q
  | .none => Option.none
  | .str s => parseFloat? (strip s)

/-- Python `round()` to an integer: round half to even. -/
def roundHalfEven (q : ℚ) : ℤ :=
  let f := ⌊q⌋
  let r := q - f
  if r < 1 / 2 then f
  else if 1 / 2 < r then f + 1
  else if Even f then f else f + 1

/-- The date component of the dedup key: the normalized ISO date, falling
back to the lightly-cleaned raw value when normalization fails. -/
def dateKeyOf (row : Rec) : PyStr :=
  match normalize_date_format row with
  | .ok out => pyStrOf ((getKey out "date").getD (.str []))
  | .error _ => strip (pyStrOf ((get2 row "date" "Date").getD (.str [])))

/-- The description component of the dedup key (before lowering). -/
def descKeyOf (row : Rec) : PyStr :=
  match clean_transaction_description row with
  | .ok out => pyStrOf ((getKey out "description").getD (.str []))
  | .error _ => strip (pyStrOf ((get3 row "description" "Description" "source").getD (.str [])))

/-- The category component of the dedup key. -/
def catKeyOf (row : Rec) : PyStr :=
  match standardize_category_names row with
  | .ok out => pyStrOf ((getKey out "category").getD (.str []))
  | .error _ => strip (pyStrOf ((get2 row "category" "Category").getD (.str [])))

/-- The amount component: integer cents, with unparseable or missing amounts
contributing `float` 0.0. -/
def centsOf (row : Rec) : ℤ :=
  let amtRaw := (get2 row "amount" "Amount").getD (.num 0)
  match pyFloat? amtRaw with
  | some q => roundHalfEven (q * 100)
  | Option.none => 0

/-- The account component: lower-cased, with falsy values coerced to the
empty string first. -/
def accountKeyOf (row : Rec) : PyStr :=
  let v := (get2 row "account" "Account").getD (.str [])
  let v2 := if pyFalsy v then Value.str [] else v
  lowerS (strip (pyStrOf v2))

/-- The stable order-preserving deduplication key of
`remove_duplicate_transactions`. -/
abbrev DKey := PyStr × ℤ × PyStr × PyStr × PyStr

def dedupKey (row : Rec) : DKey :=
  (dateKeyOf row, centsOf row, lowerS (descKeyOf row), catKeyOf row, accountKeyOf row)

/-- The seen-set loop shared by both deduplicators: keep a row when its key
has not been seen, remembering the key. -/
def dedupByGo {α κ : Type} [DecidableEq κ] (key : α → κ) (seen : List κ) :
    List α → List α
  | [] => []
  | r :: rs =>
    if key r ∈ seen then dedupByGo key seen rs
    else r :: dedupByGo key (key r :: seen) rs

def dedupBy {α κ : Type} [DecidableEq κ] (key : α → κ) (rows : List α) : List α :=
  dedupByGo key [] rows

/-- `remove_duplicate_transactions` from `library_name.py`. -/
def remove_duplicate_transactions (rows : List Rec) : List Rec :=
  dedupBy dedupKey rows

/-- The key used by the `Project4_Financial_Tracker_Final_Version.py`
deduplicator: `tuple(sorted(row.items()))`, i.e. the items sorted by key. -/
def p4Key (row : Rec) : Rec :=
  row.mergeSort (fun a b => a.1 ≤ b.1)

/-- `remove_duplicate_transactions` from the final-version single file. -/
def p4_remove_duplicate_transactions (rows : List Rec) : List Rec :=
  dedupBy p4Key rows

/-! ## Transaction entity and its constructor validation -/

/-- Python `round(x, 2)`. -/
def round2 (q : ℚ) : ℚ := (roundHalfEven (q * 100) : ℚ) / 100

inductive TType where
  | debit
  | credit
deriving DecidableEq

structure Txn where
  transactionId : PyStr
  amount : ℚ
  date : PyStr
  category : PyStr
  accountId : PyStr
  transactionType : TType
  description : PyStr
deriving DecidableEq

/-- Signed amount: positive for credits (income), negative for debits. -/
def signedAmount (t : Txn) : ℚ :=
  if t.transactionType = .credit then t.amount else -t.amount

/-- `validate_transaction_amount` from `library_name.py`: `TypeError` on a
non-number, else `False` unless `0 < amount` and `amount ≤ 1_000_000`. -/
def validate_transaction_amount (amount : Value) : Except CleanErr Bool :=
  match amount with
  | .num q =>
    if q ≤ 0 then .ok false
    else if q > 1000000 then .ok false
    else .ok true
  | _ => .error (.typeErr "Amount must be a number")

/-- Lexicographic comparison of calendar dates. -/
def dateLE (a b : Date) : Bool :=
  decide (a.year < b.year ∨ (a.year = b.year ∧
    (a.month < b.month ∨ (a.month = b.month ∧ a.day ≤ b.day))))

/-- `validate_date_format` from `library_name.py` at its default format:
parseable as `YYYY-MM-DD`, not after `today`, not before 1900. -/
def validate_date_format (today : Date) (s : PyStr) : Bool :=
  match strptime .ymdDash s with
  | some dt => dateLE dt today && decide (1900 ≤ dt.year)
  | Option.none => false

def validCategories : List PyStr :=
  [litS "subscription", litS "subscriptions", litS "bill", litS "bills",
   litS "food", litS "groceries", litS "entertainment",
   litS "transportation", litS "transport", litS "utilities",
   litS "healthcare", litS "health", litS "shopping", litS "retail",
   litS "debt", litS "loan", litS "income", litS "salary", litS "other"]

/-- `validate_category` from `library_name.py` (string input): raises on an
all-whitespace value, accepts the predefined vocabulary, and with
`allow_custom` accepts values of at most 50 characters containing a letter. -/
def validate_category (category : PyStr) (allowCustom : Bool) : Except CleanErr Bool :=
  if strip category = [] then .error (.valueErr "Category cannot be empty")
  else
    let normalized := lowerS (strip category)
    if normalized ∈ validCategories then .ok true
    else if allowCustom then
      if category.length > 50 then .ok false
      else if category.any isAlphaN then .ok true
      else .ok false
    else .ok false

inductive TxnErr where
  | typeErr (msg : String)
  | valueErr (msg : String)
deriving DecidableEq

instance {ε α : Type} [DecidableEq ε] [DecidableEq α] : DecidableEq (Except ε α) := fun a b =>
  match a, b with
  | .ok x, .ok y =>
    if h : x = y then isTrue (by rw [h]) else isFalse (fun hh => h (by injection hh))
  | .ok _, .error _ => isFalse (fun hh => Except.noConfusion hh)
  | .error _, .ok _ => isFalse (fun hh => Except.noConfusion hh)
  | .error x, .error y =>
    if h : x = y then isTrue (by rw [h]) else isFalse (fun hh => h (by injection hh))

/-- The `Transaction.__init__` validation chain of `transaction.py`, with
`today` standing for `datetime.now()`. -/
def mkTransaction (today : Date) (transactionId : PyStr) (amount : Value)
    (date : PyStr) (category : PyStr) (accountId : PyStr)
    (transactionType : PyStr) (description : PyStr) : Except TxnErr Txn :=
  if strip transactionId = [] then .error (.valueErr "Transaction ID cannot be empty")
  else
    match validate_transaction_amount amount with
    | .error _ => .error (.typeErr "Amount must be a number")
    | .ok amountOk =>
      if !amountOk then .error (.valueErr "Invalid amount")
      else if !validate_date_format today date then .error (.valueErr "Invalid date")
      else
        match validate_category category true with
        | .error _ => .error (.valueErr "Category cannot be empty")
        | .ok categoryOk =>
          if !categoryOk then .error (.valueErr "Invalid category")
          else if strip accountId = [] then .error (.valueErr "Account ID cannot be empty")
          else if transactionType ≠ litS "debit" ∧ transactionType ≠ litS "credit" then
            .error (.valueErr "Transaction type must be debit or credit")
          else if description.length > 500 then
            .error (.valueErr "Description cannot exceed 500 characters")
          else
            .ok
              { transactionId := transactionId
                amount := (match amount with | .num q => q | _ => 0)
                date := date
                category := strip category
                accountId := accountId
                transactionType := if transactionType = litS "credit" then .credit else .debit
                description := strip description }

/-! ## Account hierarchy -/

def sumSigned (ts : List Txn) : ℚ := (ts.map signedAmount).sum

structure CheckingState where
  accountId : PyStr
  accountName : PyStr
  owner : PyStr
  overdraftLimit : ℚ
  monthlyFee : ℚ
  minimumBalance : ℚ
  txns : List Txn
  checksWritten : List Nat
deriving DecidableEq

structure SavingsState where
  accountId : PyStr
  accountName : PyStr
  owner : PyStr
  interestRate : ℚ
  minimumBalance : ℚ
  monthlyWithdrawalLimit : Nat
  lowBalanceFee : ℚ
  txns : List Txn
  withdrawalCountThisMonth : Nat
  lastWithdrawalMonth : Option Nat
deriving DecidableEq

structure CreditState where
  accountId : PyStr
  accountName : PyStr
  owner : PyStr
  creditLimit : ℚ
  apr : ℚ
  totalInterestCharged : ℚ
  txns : List Txn
deriving DecidableEq

inductive WReason where
  | notPositive
  | limitReached
  | insufficient
deriving DecidableEq

inductive AccErr where
  | mismatch
  | withdrawalDenied (reason : Option WReason)
  | txnError (e : TxnErr)
  | checkNumberUsed
  | checkAmountNotPositive
  | checkDenied
  | noSuchMethod
deriving DecidableEq

/-- The base `Account.add_transaction`: hard error unless the transaction's
`account_id` matches, else append. -/
def baseAdd (accId : PyStr) (txns : List Txn) (t : Txn) : Except AccErr (List Txn) :=
  if t.accountId ≠ accId then .error .mismatch else .ok (txns ++ [t])

/-! ### CheckingAccount -/

def checkingBalance (s : CheckingState) : ℚ := sumSigned s.txns

def checkingAvailable (s : CheckingState) : ℚ := checkingBalance s + s.overdraftLimit

def checkingCanWithdraw (s : CheckingState) (amount : ℚ) : Bool × Option WReason :=
  if amount ≤ 0 then (false, some .notPositive)
  else if amount ≤ checkingAvailable s then (true, Option.none)
  else (false, some .insufficient)

/-- `CheckingAccount.apply_monthly_fees`: below the minimum balance, create
and append a Bank Fees debit for the monthly fee dated `today`. -/
def checkingApplyFees (today : Date) (feeId : PyStr) (s : CheckingState) :
    CheckingState × Except AccErr ℚ :=
  if checkingBalance s < s.minimumBalance then
    match mkTransaction today feeId (.num s.monthlyFee) (formatIso today)
        (litS "Bank Fees") s.accountId (litS "debit") (litS "Monthly maintenance fee") with
    | .error e => (s, .error (.txnError e))
    | .ok t =>
      match baseAdd s.accountId s.txns t with
      | .error e => (s, .error e)
      | .ok ts => ({ s with txns := ts }, .ok s.monthlyFee)
  else (s, .ok 0)

/-- `CheckingAccount.write_check`: unique check number, positive amount,
funds check, then a Check Payment debit appended and the number recorded. -/
def checkingWriteCheck (today : Date) (n : Nat) (amount : ℚ) (payee : PyStr)
    (s : CheckingState) : CheckingState × Option AccErr :=
  if n ∈ s.checksWritten then (s, some .checkNumberUsed)
  else if amount ≤ 0 then (s, some .checkAmountNotPositive)
  else if !(checkingCanWithdraw s amount).1 then (s, some .checkDenied)
  else
    match mkTransaction today (litS "CHK" ++ natRepr n) (.num amount) (formatIso today)
        (litS "Check Payment") s.accountId (litS "debit")
        (litS "Check #" ++ natRepr n ++ litS " to " ++ payee) with
    | .error e => (s, some (.txnError e))
    | .ok t =>
      match baseAdd s.accountId s.txns t with
      | .error e => (s, some e)
      | .ok ts => ({ s with txns := ts, checksWritten := s.checksWritten ++ [n] }, Option.none)

/-! ### SavingsAccount -/

def savingsBalance (s : SavingsState) : ℚ := sumSigned s.txns

def savingsAvailable (s : SavingsState) : ℚ :=
  max 0 (savingsBalance s - s.minimumBalance)

/-- `_reset_withdrawal_count_if_new_month`, with `now` the current calendar
month. -/
def resetIfNewMonth (now : Nat) (s : SavingsState) : SavingsState :=
  if s.lastWithdrawalMonth ≠ some now then { s with withdrawalCountThisMonth := 0 } else s

/-- `SavingsAccount.can_withdraw`; the month reset is a real state effect. -/
def savingsCanWithdraw (now : Nat) (s : SavingsState) (amount : ℚ) :
    SavingsState × Bool × Option WReason :=
  if amount ≤ 0 then (s, false, some .notPositive)
  else
    let s₁ := resetIfNewMonth now s
    if s₁.withdrawalCountThisMonth ≥ s₁.monthlyWithdrawalLimit then
      (s₁, false, some .limitReached)
    else if amount > savingsAvailable s₁ then (s₁, false, some .insufficient)
    else (s₁, true, Option.none)

/-- `SavingsAccount.apply_monthly_fees`: reports interest earned (negative)
or the low-balance fee (positive); it mutates nothing and posts nothing. -/
def savingsApplyFees (s : SavingsState) : SavingsState × ℚ :=
  if savingsBalance s ≥ s.minimumBalance then
    (s, -round2 (savingsBalance s * (s.interestRate / 12)))
  else (s, s.lowBalanceFee)

/-- `SavingsAccount.add_transaction`: a debit must pass `can_withdraw`, and
an accepted withdrawal bumps the monthly counter before the base append. -/
def savingsAdd (now : Nat) (s : SavingsState) (t : Txn) :
    SavingsState × Option AccErr :=
  if signedAmount t < 0 then
    match savingsCanWithdraw now s |signedAmount t| with
    | (s₁, false, reason) => (s₁, some (.withdrawalDenied reason))
    | (s₁, true, _) =>
      let s₂ := resetIfNewMonth now s₁
      let s₃ := { s₂ with withdrawalCountThisMonth := s₂.withdrawalCountThisMonth + 1,
                          lastWithdrawalMonth := some now }
      match baseAdd s₃.accountId s₃.txns t with
      | .error e => (s₃, some e)
      | .ok ts => ({ s₃ with txns := ts }, Option.none)
  else
    match baseAdd s.accountId s.txns t with
    | .error e => (s, some e)
    | .ok ts => ({ s with txns := ts }, Option.none)

/-! ### CreditAccount (final-version implementation) -/

def creditBalance (s : CreditState) : ℚ := sumSigned s.txns

def creditAvailable (s : CreditState) : ℚ :=
  if creditBalance s < 0 then max 0 (s.creditLimit - |creditBalance s|)
  else s.creditLimit + creditBalance s

def creditCanWithdraw (s : CreditState) (amount : ℚ) : Bool × Option WReason :=
  if amount ≤ 0 then (false, some .notPositive)
  else if amount ≤ creditAvailable s then (true, Option.none)
  else (false, some .insufficient)

/-- `CreditAccount.apply_monthly_fees`: interest on money owed, appended as
an Interest debit and accumulated into `total_interest_charged`. -/
def creditApplyFees (today : Date) (feeId : PyStr) (s : CreditState) :
    CreditState × Except AccErr ℚ :=
  if creditBalance s ≥ 0 then (s, .ok 0)
  else
    let interest := round2 (|creditBalance s| * (s.apr / 100 / 12))
    if interest > 0 then
      match mkTransaction today feeId (.num interest) (formatIso today)
          (litS "Interest") s.accountId (litS "debit") (litS "Monthly interest charge") with
      | .error e => (s, .error (.txnError e))
      | .ok t =>
        match baseAdd s.accountId s.txns t with
        | .error e => (s, .error e)
        | .ok ts =>
          ({ s with txns := ts, totalInterestCharged := s.totalInterestCharged + interest },
            .ok interest)
    else (s, .ok interest)

/-! ### The polymorphic account and its operations -/

inductive AccountState where
  | checking (s : CheckingState)
  | savings (s : SavingsState)
  | credit (s : CreditState)
deriving DecidableEq

def txnsOf : AccountState → List Txn
  | .checking s => s.txns
  | .savings s => s.txns
  | .credit s => s.txns

def accountIdOf : AccountState → PyStr
  | .checking s => s.accountId
  | .savings s => s.accountId
  | .credit s => s.accountId

/-- The `balance` property: always computed on demand as the sum of signed
amounts over the owned transactions (never stored). -/
def balance (a : AccountState) : ℚ := sumSigned (txnsOf a)

/-- The state-changing operations of the account interface. `now` is the
calendar month and `today` the calendar date of the call. -/
inductive AOp where
  | add (now : Nat) (t : Txn)
  | applyFees (today : Date) (feeId : PyStr)
  | writeCheck (today : Date) (n : Nat) (amount : ℚ) (payee : PyStr)

def step (op : AOp) (a : AccountState) : AccountState × Option AccErr :=
  match op, a with
  | .add _ t, .checking s =>
    match baseAdd s.accountId s.txns t with
    | .error e => (.checking s, some e)
    | .ok ts => (.checking { s with txns := ts }, Option.none)
  | .add now t, .savings s =>
    let (s₁, e) := savingsAdd now s t
    (.savings s₁, e)
  | .add _ t, .credit s =>
    match baseAdd s.accountId s.txns t with
    | .error e => (.credit s, some e)
    | .ok ts => (.credit { s with txns := ts }, Option.none)
  | .applyFees today feeId, .checking s =>
    let (s₁, r) := checkingApplyFees today feeId s
    (.checking s₁, match r with | .ok _ => Option.none | .error e => some e)
  | .applyFees _ _, .savings s =>
    let (s₁, _) := savingsApplyFees s
    (.savings s₁, Option.none)
  | .applyFees today feeId, .credit s =>
    let (s₁, r) := creditApplyFees today feeId s
    (.credit s₁, match r with | .ok _ => Option.none | .error e => some e)
  | .writeCheck today n amount payee, .checking s =>
    let (s₁, e) := checkingWriteCheck today n amount payee s
    (.checking s₁, e)
  | .writeCheck _ _ _ _, .savings s => (.savings s, some .noSuchMethod)
  | .writeCheck _ _ _ _, .credit s => (.credit s, some .noSuchMethod)

def run (ops : List AOp) (a : AccountState) : AccountState :=
  ops.foldl (fun st op => (step op st).1) a

/-! ## Alert rules -/

/-- `LargeTransactionRule.check` from `datacleaner.py`: read `amount`,
silently skip when it cannot be interpreted, alert when it reaches the
threshold (signed comparison). -/
def largeTransactionCheck (threshold : ℚ) (tx : Rec) : Option PyStr :=
  match (getKey tx "amount").bind pyFloat? with
  | Option.none => Option.none
  | some amount =>
    if amount ≥ threshold then some (litS "Large Transaction: " ++ numRepr amount)
    else Option.none

/-- Python `x or y` over two lookups, as in the final-version rule. -/
def pyGetOr (tx : Rec) (k₁ k₂ : String) : Option Value :=
  match getKey tx k₁ with
  | some v => if pyFalsy v then getKey tx k₂ else some v
  | Option.none => getKey tx k₂

/-- `LargeTransactionRule.check` from the final-version single file:
`amount` falling back to `Amount`, absolute-value comparison. -/
def p4LargeTransactionCheck (threshold : ℚ) (tx : Rec) : Option PyStr :=
  match (pyGetOr tx "amount" "Amount").bind pyFloat? with
  | Option.none => Option.none
  | some q =>
    if |q| ≥ threshold then some (litS "Large Transaction: " ++ numRepr |q|)
    else Option.none

/-! ## Canonical categories and the final-version standardizer -/

/-- The twelve canonical category names of `standardize_category_names`. -/
def canonical12 : List PyStr :=
  [litS "Subscription", litS "Bills", litS "Food", litS "Groceries",
   litS "Entertainment", litS "Transportation", litS "Utilities",
   litS "Healthcare", litS "Shopping", litS "Debt", litS "Income", litS "Other"]

/-- The synonym table of the final-version `standardize_category_names`. -/
def p4CategoryMapping : List (PyStr × PyStr) :=
  [(litS "subscr", litS "Subscription"), (litS "subs", litS "Subscription"),
   (litS "dining", litS "Dining"), (litS "food", litS "Dining"),
   (litS "shop", litS "Shopping"), (litS "groceries", litS "Groceries"),
   (litS "restaurants", litS "Dining")]

def p4LookupCategory (s : PyStr) : Option PyStr :=
  (p4CategoryMapping.find? (fun p => p.1 == s)).map (fun p => p.2)

/-- Python `o or d` where `o` is an optional lookup result. -/
def pyOrDefault (o : Option Value) (d : Value) : Value :=
  match o with
  | some v => if pyFalsy v then d else v
  | Option.none => d

/-- `mapping.get(category, category.title() if category else "Other")` of the
final-version standardizer. -/
def p4StdOf (category : PyStr) : PyStr :=
  match p4LookupCategory category with
  | some v => v
  | Option.none => if category = [] then litS "Other" else titleS category

/-- `standardize_category_names` from the final-version single file. -/
def p4_standardize_category_names (row : Rec) : Rec :=
  setKey row "category" (Value.str (p4StdOf (strip (lowerS (pyStrOf
    (pyOrDefault (pyGetOr row "category" "Category") (Value.str [])))))))

/-- A concrete raw record exercising the category standardizer. -/
def c4Row : Rec := [("category", Value.str (litS "subscr")), ("amount", Value.num 5)]

/-- Its standardized form. -/
def c4Out : Rec := [("category", Value.str (litS "Subscription")), ("amount", Value.num 5)]

/-- A concrete record whose date is already in ISO form. -/
def c5Row : Rec := [("date", Value.str (litS "2025-01-02")), ("amount", Value.num 3)]

/-- The three normalization passes of `TransactionCleaner.clean_all`, applied
to a single record in pipeline order. -/
def cleanRec (r : Rec) : Except CleanErr Rec :=
  match normalize_date_format r with
  | Except.error e => Except.error e
  | Except.ok r₁ =>
    match clean_transaction_description r₁ with
    | Except.error e => Except.error e
    | Except.ok r₂ => standardize_category_names r₂

/-- The pipeline as a total map, keeping a record unchanged on failure. -/
def cleanRecD (r : Rec) : Rec :=
  match cleanRec r with
  | Except.ok c => c
  | Except.error _ => r

/-- Raw records whose descriptions differ only by a strippable code token. -/
def c3R1 : Rec :=
  [("date", Value.str (litS "2025-01-02")),
   ("description", Value.str (litS "Pay TRN001 ORD-99")),
   ("category", Value.str (litS "food")), ("account", Value.str (litS "checking")),
   ("amount", Value.str (litS "x"))]

def c3R2 : Rec :=
  [("date", Value.str (litS "2025-01-02")),
   ("description", Value.str (litS "Pay TRN001")),
   ("category", Value.str (litS "food")), ("account", Value.str (litS "checking")),
   ("amount", Value.str (litS "x"))]

/-- Their normalized forms. -/
def c3C1 : Rec :=
  [("date", Value.str (litS "2025-01-02")),
   ("description", Value.str (litS "Pay TRN001")),
   ("category", Value.str (litS "Food")), ("account", Value.str (litS "checking")),
   ("amount", Value.str (litS "x"))]

def c3C2 : Rec :=
  [("date", Value.str (litS "2025-01-02")),
   ("description", Value.str (litS "Pay")),
   ("category", Value.str (litS "Food")), ("account", Value.str (litS "checking")),
   ("amount", Value.str (litS "x"))]

/-- A record whose cleaned description is stable under a second cleaning. -/
def c3W : Rec :=
  [("date", Value.str (litS "2025-01-02")),
   ("description", Value.str (litS "Coffee Shop")),
   ("category", Value.str (litS "food")), ("account", Value.str (litS "checking")),
   ("amount", Value.str (litS "x"))]

/-! ## Scenario data and invariant definitions used by the claim theorems -/

/-- The date component as a function of the `date`/`Date` lookup alone. -/
def dateKeyFn : Option Value → PyStr
  | Option.none => []
  | some Value.none => strip (pyStrOf Value.none)
  | some v =>
    let s := strip (pyStrOf v)
    match tryFormats dateFormats s with
    | some dt => formatIso dt
    | Option.none => s

/-- The description component as a function of the description-chain lookup
alone. -/
def descKeyFn : Option Value → PyStr
  | Option.none => []
  | some v =>
    let s := joinSpace (splitWS (strip (pyStrOf v)))
    if s = [] then strip (pyStrOf v)
    else
      let cleaned := strip (joinSpace (stripTrailingCode (splitSep 32 s)))
      if cleaned = [] then strip (pyStrOf v) else cleaned

/-- The category component as a function of the `category`/`Category` lookup
alone. -/
def catKeyFn : Option Value → PyStr
  | Option.none => []
  | some v =>
    let s := lowerS (strip (pyStrOf v))
    if s = [] then strip (pyStrOf v)
    else stdOf s v

/-- Scenario data: a checking account holding a 300 deposit, below its 500
minimum, and a credit account owing 200 at a 12 percent APR. -/
def c8ChkDemo : CheckingState :=
  ⟨litS "ACC001", litS "Main Checking", litS "Uzzam", 0, 10, 500,
    [⟨litS "T1", 300, litS "2025-11-01", litS "Income", litS "ACC001", .credit, []⟩], []⟩

def c8CrdDemo : CreditState :=
  ⟨litS "ACC003", litS "Visa", litS "Uzzam", 3000, 12, 0,
    [⟨litS "P1", 200, litS "2025-11-01", litS "Shopping", litS "ACC003", .debit, []⟩]⟩

def c1Chk0 : CheckingState :=
  ⟨litS "ACC001", litS "Checking", litS "U", 0, 10, 500, [], []⟩

def c1DemoTxn : Txn :=
  ⟨litS "T1", 50, litS "2025-11-01", litS "Food", litS "ACC001", .debit, []⟩

/-- The ownership invariant: every owned transaction carries the owning
account's id. -/
def accInv (a : AccountState) : Prop :=
  ∀ t ∈ txnsOf a, t.accountId = accountIdOf a

def c7Chk0 : CheckingState :=
  ⟨litS "ACC001", litS "Checking", litS "U", 0, 10, 500, [], []⟩

def c7MismatchTxn : Txn :=
  ⟨litS "T9", 25, litS "2025-11-01", litS "Food", litS "OTHER", .debit, []⟩

def c7SavLow : SavingsState :=
  ⟨litS "SAV1", litS "Savings", litS "U", 1 / 25, 100, 6, 15, [], 0, some 11⟩

def c7SavOk : SavingsState :=
  ⟨litS "SAV2", litS "Savings", litS "U", 1 / 25, 0, 6, 15,
    [⟨litS "D1", 100, litS "2025-11-01", litS "Income", litS "SAV2", .credit, []⟩],
    0, Option.none⟩

def c7DebitLow : Txn :=
  ⟨litS "W1", 50, litS "2025-11-02", litS "Food", litS "SAV1", .debit, []⟩

def c7DebitOk : Txn :=
  ⟨litS "W2", 50, litS "2025-11-02", litS "Food", litS "SAV2", .debit, []⟩

/-! ## Record lemmas -/

theorem getKey_cons (pk : String) (pv : Value) (rest : Rec) (k : String) :
    getKey ((pk, pv) :: rest) k = if pk = k then some pv else getKey rest k := rfl

theorem getKey_map_replace {r : Rec} {k : String} (v : Value) (h : hasKey r k) :
    getKey (r.map fun p => if p.1 = k then (k, v) else p) k = some v := by
  induction r with
  | nil => simp [hasKey, getKey] at h
  | cons p rest ih =>
    obtain ⟨pk, pv⟩ := p
    by_cases hp : pk = k
    · subst hp
      simp [getKey_cons]
    · have h' : hasKey rest k := by
        simpa [hasKey, getKey_cons, hp] using h
      simp only [List.map_cons, if_neg hp, getKey_cons, hp, if_false]
      exact ih h'

theorem getKey_append_single {r : Rec} {k : String} (v : Value) (h : ¬ hasKey r k) :
    getKey (r ++ [(k, v)]) k = some v := by
  induction r with
  | nil => simp [getKey_cons, getKey]
  | cons p rest ih =>
    obtain ⟨pk, pv⟩ := p
    by_cases hp : pk = k
    · exact absurd (by simp [hasKey, getKey_cons, hp]) h
    · have h' : ¬ hasKey rest k := by
        simpa [hasKey, getKey_cons, hp] using h
      simpa [getKey_cons, hp] using ih h'

theorem getKey_setKey_self (r : Rec) (k : String) (v : Value) :
    getKey (setKey r k v) k = some v := by
  unfold setKey
  split
  · exact getKey_map_replace v (by assumption)
  · exact getKey_append_single v (by assumption)

theorem getKey_map_replace_ne {k k' : String} (v : Value) (h : k ≠ k') :
    ∀ r : Rec, getKey (r.map fun p => if p.1 = k' then (k', v) else p) k = getKey r k := by
  intro r
  induction r with
  | nil => simp [getKey]
  | cons p rest ih =>
    obtain ⟨pk, pv⟩ := p
    by_cases hp : pk = k'
    · subst hp
      simp [getKey_cons, Ne.symm h, ih]
    · simp [getKey_cons, hp, ih]

theorem getKey_append_ne {k k' : String} (v : Value) (h : k ≠ k') :
    ∀ r : Rec, getKey (r ++ [(k', v)]) k = getKey r k := by
  intro r
  induction r with
  | nil => simp [getKey_cons, getKey, Ne.symm h]
  | cons p rest ih =>
    obtain ⟨pk, pv⟩ := p
    by_cases hpk : pk = k
    · simp [getKey_cons, hpk]
    · simp only [List.cons_append, getKey_cons, hpk, if_false]
      exact ih

theorem getKey_setKey_ne (r : Rec) {k k' : String} (v : Value) (h : k ≠ k') :
    getKey (setKey r k' v) k = getKey r k := by
  unfold setKey
  split
  · exact getKey_map_replace_ne v h r
  · exact getKey_append_ne v h r

theorem getKey_eraseKey_ne (r : Rec) {k k' : String} (h : k ≠ k') :
    getKey (eraseKey r k') k = getKey r k := by
  induction r with
  | nil => simp [eraseKey, getKey]
  | cons p rest ih =>
    obtain ⟨pk, pv⟩ := p
    simp only [eraseKey] at ih ⊢
    by_cases hp : pk = k'
    · have hpk : pk ≠ k := by rw [hp]; exact Ne.symm h
      rw [List.filter_cons_of_neg (by simp [hp])]
      rw [ih, getKey_cons, if_neg hpk]
    · rw [List.filter_cons_of_pos (by simp [hp])]
      rw [getKey_cons, getKey_cons, ih]

theorem mapEqSelf {α : Type} {l : List α} {f : α → α} (h : ∀ x ∈ l, f x = x) :
    l.map f = l := by
  induction l with
  | nil => rfl
  | cons a l ih =>
    simp only [List.map_cons]
    rw [h a (List.mem_cons_self a l), ih fun x hx => h x (List.mem_cons_of_mem _ hx)]

theorem setKey_of_all_eq {r : Rec} {k : String} {v : Value}
    (hk : hasKey r k) (h : ∀ p ∈ r, p.1 = k → p = (k, v)) : setKey r k v = r := by
  unfold setKey
  rw [if_pos hk]
  apply mapEqSelf
  intro p hp
  by_cases hpk : p.1 = k
  · rw [if_pos hpk]; exact (h p hp hpk).symm
  · rw [if_neg hpk]

theorem eraseKey_of_all_ne {r : Rec} {k : String} (h : ∀ p ∈ r, p.1 ≠ k) :
    eraseKey r k = r := by
  unfold eraseKey
  apply List.filter_eq_self.2
  intro p hp
  simpa using h p hp

theorem mem_setKey {r : Rec} {k : String} {v : Value} {p : String × Value}
    (hp : p ∈ setKey r k v) : p ∈ r ∨ p = (k, v) := by
  unfold setKey at hp
  split at hp
  · rcases List.mem_map.1 hp with ⟨q, hq, rfl⟩
    by_cases hqk : q.1 = k
    · right; simp [hqk]
    · left; simpa [hqk] using hq
  · rcases List.mem_append.1 hp with h | h
    · exact Or.inl h
    · right; simpa using h

theorem mem_eraseKey {r : Rec} {k : String} {p : String × Value}
    (hp : p ∈ eraseKey r k) : p ∈ r ∧ p.1 ≠ k := by
  unfold eraseKey at hp
  have := List.of_mem_filter hp
  exact ⟨List.mem_of_mem_filter hp, by simpa using this⟩

/-! ## Generic facts about the seen-set deduplication loop -/

section Dedup

variable {α κ : Type} [DecidableEq κ] (key : α → κ)

theorem dedupByGo_sublist : ∀ (l : List α) (seen : List κ),
    List.Sublist (dedupByGo key seen l) l := by
  intro l
  induction l with
  | nil => intro seen; simp [dedupByGo]
  | cons r rs ih =>
    intro seen
    simp only [dedupByGo]
    split
    · exact (ih seen).cons r
    · exact (ih _).cons₂ r

theorem dedupByGo_keys : ∀ (l : List α) (seen : List κ),
    ((dedupByGo key seen l).map key).Nodup ∧
      ∀ a ∈ dedupByGo key seen l, key a ∉ seen := by
  intro l
  induction l with
  | nil => intro seen; simp [dedupByGo]
  | cons r rs ih =>
    intro seen
    simp only [dedupByGo]
    split
    · exact ⟨(ih seen).1, (ih seen).2⟩
    · rename_i hr
      refine ⟨?_, ?_⟩
      · simp only [List.map_cons, List.nodup_cons]
        refine ⟨?_, (ih (key r :: seen)).1⟩
        intro hmem
        rcases List.mem_map.1 hmem with ⟨a, ha, hk⟩
        exact (ih (key r :: seen)).2 a ha (by simp [hk])
      · intro a ha
        rcases List.mem_cons.1 ha with rfl | ha'
        · exact hr
        · have := (ih (key r :: seen)).2 a ha'
          exact fun hmem => this (List.mem_cons_of_mem _ hmem)

theorem dedupByGo_eq_self : ∀ (l : List α) (seen : List κ),
    (l.map key).Nodup → (∀ a ∈ l, key a ∉ seen) → dedupByGo key seen l = l := by
  intro l
  induction l with
  | nil => intro seen _ _; rfl
  | cons r rs ih =>
    intro seen hnd hdisj
    simp only [List.map_cons, List.nodup_cons] at hnd
    have hr : key r ∉ seen := hdisj r (List.mem_cons_self r rs)
    simp only [dedupByGo, if_neg hr]
    congr 1
    apply ih
    · exact hnd.2
    · intro a ha hmem
      rcases List.mem_cons.1 hmem with h | h
      · exact hnd.1 (h ▸ List.mem_map_of_mem key ha)
      · exact hdisj a (List.mem_cons_of_mem _ ha) h

theorem dedupBy_idem (l : List α) : dedupBy key (dedupBy key l) = dedupBy key l := by
  unfold dedupBy
  exact dedupByGo_eq_self key _ [] (dedupByGo_keys key l []).1 (by simp)

theorem dedupByGo_filter (k : κ) : ∀ (l : List α) (seen : List κ),
    (dedupByGo key seen l).filter (fun r => decide (key r = k)) =
      if k ∈ seen then [] else (l.filter (fun r => decide (key r = k))).take 1 := by
  intro l
  induction l with
  | nil => intro seen; by_cases h : k ∈ seen <;> simp [dedupByGo, h]
  | cons r rs ih =>
    intro seen
    simp only [dedupByGo]
    by_cases hrk : key r = k
    · subst hrk
      by_cases hks : key r ∈ seen
      · rw [if_pos hks, ih, if_pos hks, if_pos hks]
      · rw [if_neg hks, if_neg hks]
        rw [List.filter_cons_of_pos (by simp), List.filter_cons_of_pos (by simp)]
        rw [ih, if_pos (List.mem_cons_self _ _)]
        simp
    · by_cases hks : key r ∈ seen
      · rw [if_pos hks, ih]
        by_cases hkseen : k ∈ seen
        · simp [hkseen]
        · rw [if_neg hkseen, if_neg hkseen]
          rw [List.filter_cons_of_neg (by simp [hrk])]
      · rw [if_neg hks]
        have hkcons : (k ∈ key r :: seen) ↔ (k ∈ seen) := by
          constructor
          · intro hm
            rcases List.mem_cons.1 hm with hm | hm
            · exact absurd hm.symm hrk
            · exact hm
          · exact fun hm => List.mem_cons_of_mem _ hm
        rw [List.filter_cons_of_neg (by simp [hrk])]
        rw [List.filter_cons_of_neg (by simp [hrk])]
        rw [ih]
        by_cases hkseen : k ∈ seen
        · rw [if_pos (hkcons.2 hkseen), if_pos hkseen]
        · rw [if_neg (fun hm => hkseen (hkcons.1 hm)), if_neg hkseen]

theorem dedupBy_filter (l : List α) (k : κ) :
    (dedupBy key l).filter (fun r => decide (key r = k)) =
      (l.filter (fun r => decide (key r = k))).take 1 := by
  unfold dedupBy
  rw [dedupByGo_filter]
  simp

theorem dedupByGo_map_comm (f : α → α) :
    ∀ (l : List α) (seen : List κ), (∀ a ∈ l, key (f a) = key a) →
      dedupByGo key seen (l.map f) = (dedupByGo key seen l).map f := by
  intro l
  induction l with
  | nil => intro seen _; rfl
  | cons r rs ih =>
    intro seen hstable
    have hr : key (f r) = key r := hstable r (List.mem_cons_self r rs)
    simp only [List.map_cons, dedupByGo, hr]
    by_cases hmem : key r ∈ seen
    · rw [if_pos hmem, if_pos hmem]
      exact ih seen (fun a ha => hstable a (List.mem_cons_of_mem _ ha))
    · rw [if_neg hmem, if_neg hmem, List.map_cons]
      congr 1
      exact ih (key r :: seen) (fun a ha => hstable a (List.mem_cons_of_mem _ ha))

end Dedup

/-! ## Reductions of the dedup-key components to the relevant lookups -/

theorem dateKeyOf_eq (row : Rec) :
    dateKeyOf row = dateKeyFn (get2 row "date" "Date") := by
  unfold dateKeyOf normalize_date_format dateKeyFn
  cases hv : get2 row "date" "Date" with
  | none => rfl
  | some v =>
    cases v with
    | none => rfl
    | str s =>
      simp only
      by_cases hs : strip (pyStrOf (Value.str s)) = []
      · rw [if_pos hs]
        show strip (pyStrOf (Value.str s)) = _
        rw [hs]
        rfl
      · rw [if_neg hs]
        cases hp : tryFormats dateFormats (strip (pyStrOf (Value.str s))) with
        | none => rfl
        | some dt =>
          simp only
          rw [getKey_eraseKey_ne _ (by decide), getKey_setKey_self]
          rfl
    | num q =>
      simp only
      by_cases hs : strip (pyStrOf (Value.num q)) = []
      · rw [if_pos hs]
        show strip (pyStrOf (Value.num q)) = _
        rw [hs]
        rfl
      · rw [if_neg hs]
        cases hp : tryFormats dateFormats (strip (pyStrOf (Value.num q))) with
        | none => rfl
        | some dt =>
          simp only
          rw [getKey_eraseKey_ne _ (by decide), getKey_setKey_self]
          rfl

theorem descKeyOf_eq (row : Rec) :
    descKeyOf row = descKeyFn (get3 row "description" "Description" "source") := by
  unfold descKeyOf clean_transaction_description descKeyFn
  cases hv : get3 row "description" "Description" "source" with
  | none => rfl
  | some v =>
    simp only
    by_cases hs : joinSpace (splitWS (strip (pyStrOf v))) = []
    · rw [if_pos hs, if_pos hs]
      rfl
    · rw [if_neg hs, if_neg hs]
      by_cases hc : strip (joinSpace (stripTrailingCode
          (splitSep 32 (joinSpace (splitWS (strip (pyStrOf v))))))) = []
      · rw [if_pos hc, if_pos hc]
        rfl
      · rw [if_neg hc, if_neg hc]
        simp only
        rw [getKey_eraseKey_ne _ (by decide), getKey_eraseKey_ne _ (by decide),
          getKey_setKey_self]
        rfl

theorem catKeyOf_eq (row : Rec) :
    catKeyOf row = catKeyFn (get2 row "category" "Category") := by
  unfold catKeyOf standardize_category_names catKeyFn
  cases hv : get2 row "category" "Category" with
  | none => rfl
  | some v =>
    simp only
    by_cases hs : lowerS (strip (pyStrOf v)) = []
    · rw [if_pos hs, if_pos hs]
      rfl
    · rw [if_neg hs, if_neg hs]
      simp only
      rw [getKey_eraseKey_ne _ (by decide), getKey_setKey_self]
      rfl

/-- The whole dedup key is determined by the five field lookups. -/
theorem dedupKey_congr {r₁ r₂ : Rec}
    (hd : get2 r₁ "date" "Date" = get2 r₂ "date" "Date")
    (hdesc : get3 r₁ "description" "Description" "source" =
      get3 r₂ "description" "Description" "source")
    (hcat : get2 r₁ "category" "Category" = get2 r₂ "category" "Category")
    (hacc : get2 r₁ "account" "Account" = get2 r₂ "account" "Account")
    (hamt : centsOf r₁ = centsOf r₂) :
    dedupKey r₁ = dedupKey r₂ := by
  unfold dedupKey
  rw [dateKeyOf_eq, dateKeyOf_eq, hd, descKeyOf_eq, descKeyOf_eq, hdesc,
    catKeyOf_eq, catKeyOf_eq, hcat, hamt]
  unfold accountKeyOf
  rw [hacc]

/-! ## Claim theorems: deduplication -/

/-- C2: deduplication is idempotent (in particular, deduplicating twice
yields the same length as once), its output is a subsequence of the input,
and for every deduplication key exactly the first input record carrying that
key is kept; the same holds for the final-version deduplicator with its
sorted-items key. -/
theorem c2_dedup_idempotent_subsequence_first_kept :
    ∀ xs : List Rec,
      remove_duplicate_transactions (remove_duplicate_transactions xs) =
        remove_duplicate_transactions xs ∧
      (remove_duplicate_transactions (remove_duplicate_transactions xs)).length =
        (remove_duplicate_transactions xs).length ∧
      List.Sublist (remove_duplicate_transactions xs) xs ∧
      (∀ k : DKey,
        (remove_duplicate_transactions xs).filter (fun r => decide (dedupKey r = k)) =
          (xs.filter (fun r => decide (dedupKey r = k))).take 1) ∧
      p4_remove_duplicate_transactions (p4_remove_duplicate_transactions xs) =
        p4_remove_duplicate_transactions xs ∧
      List.Sublist (p4_remove_duplicate_transactions xs) xs ∧
      (∀ k : Rec,
        (p4_remove_duplicate_transactions xs).filter (fun r => decide (p4Key r = k)) =
          (xs.filter (fun r => decide (p4Key r = k))).take 1) := by
  intro xs
  have hidem : remove_duplicate_transactions (remove_duplicate_transactions xs) =
      remove_duplicate_transactions xs := dedupBy_idem dedupKey xs
  refine ⟨hidem, by rw [hidem],
    dedupByGo_sublist dedupKey xs [], fun k => dedupBy_filter dedupKey xs k,
    dedupBy_idem p4Key xs, dedupByGo_sublist p4Key xs [],
    fun k => dedupBy_filter p4Key xs k⟩

/-- C10: a record whose amount is missing or unparseable contributes zero
cents to its dedup key, so two batch-mates agreeing on the other key fields
but carrying different unparseable (or missing) amounts collapse to the
first record. -/
theorem c10_unparseable_amounts_collapse :
    (∀ row : Rec,
      (get2 row "amount" "Amount" = Option.none ∨
        ∃ v, get2 row "amount" "Amount" = some v ∧ pyFloat? v = Option.none) →
      centsOf row = 0) ∧
    (∀ r₁ r₂ : Rec,
      get2 r₁ "date" "Date" = get2 r₂ "date" "Date" →
      get3 r₁ "description" "Description" "source" =
        get3 r₂ "description" "Description" "source" →
      get2 r₁ "category" "Category" = get2 r₂ "category" "Category" →
      get2 r₁ "account" "Account" = get2 r₂ "account" "Account" →
      (get2 r₁ "amount" "Amount" = Option.none ∨
        ∃ v, get2 r₁ "amount" "Amount" = some v ∧ pyFloat? v = Option.none) →
      (get2 r₂ "amount" "Amount" = Option.none ∨
        ∃ v, get2 r₂ "amount" "Amount" = some v ∧ pyFloat? v = Option.none) →
      dedupKey r₁ = dedupKey r₂ ∧
        remove_duplicate_transactions [r₁, r₂] = [r₁]) := by
  have hcents : ∀ row : Rec,
      (get2 row "amount" "Amount" = Option.none ∨
        ∃ v, get2 row "amount" "Amount" = some v ∧ pyFloat? v = Option.none) →
      centsOf row = 0 := by
    intro row h
    unfold centsOf
    rcases h with h | ⟨v, hv, hp⟩
    · rw [h]
      simp only [Option.getD_none]
      norm_num [pyFloat?, roundHalfEven]
    · rw [hv]
      simp only [Option.getD_some]
      rw [hp]
  refine ⟨hcents, fun r₁ r₂ hd hdesc hcat hacc h₁ h₂ => ?_⟩
  have hk : dedupKey r₁ = dedupKey r₂ :=
    dedupKey_congr hd hdesc hcat hacc (by rw [hcents r₁ h₁, hcents r₂ h₂])
  refine ⟨hk, ?_⟩
  simp [remove_duplicate_transactions, dedupBy, dedupByGo, hk]

/-- Concrete instance of C10: two records identical except for amounts
`abc` versus `xyz` (both unparseable) dedup to the first record. -/
theorem c10_unparseable_amounts_collapse_witness :
    dedupKey [("date", Value.str (litS "2025-01-01")),
        ("description", Value.str (litS "Coffee Shop")),
        ("category", Value.str (litS "Food")),
        ("account", Value.str (litS "checking")),
        ("amount", Value.str (litS "abc"))] =
      dedupKey [("date", Value.str (litS "2025-01-01")),
        ("description", Value.str (litS "Coffee Shop")),
        ("category", Value.str (litS "Food")),
        ("account", Value.str (litS "checking")),
        ("amount", Value.str (litS "xyz"))] ∧
    remove_duplicate_transactions
        [[("date", Value.str (litS "2025-01-01")),
          ("description", Value.str (litS "Coffee Shop")),
          ("category", Value.str (litS "Food")),
          ("account", Value.str (litS "checking")),
          ("amount", Value.str (litS "abc"))],
         [("date", Value.str (litS "2025-01-01")),
          ("description", Value.str (litS "Coffee Shop")),
          ("category", Value.str (litS "Food")),
          ("account", Value.str (litS "checking")),
          ("amount", Value.str (litS "xyz"))]] =
      [[("date", Value.str (litS "2025-01-01")),
        ("description", Value.str (litS "Coffee Shop")),
        ("category", Value.str (litS "Food")),
        ("account", Value.str (litS "checking")),
        ("amount", Value.str (litS "abc"))]] :=
  c10_unparseable_amounts_collapse.2 _ _ rfl rfl rfl rfl
    (Or.inr ⟨Value.str (litS "abc"), rfl, by decide⟩)
    (Or.inr ⟨Value.str (litS "xyz"), rfl, by decide⟩)

/-! ## Claim theorems: transaction amount validation -/

/-- C6: for numeric amounts the check passes exactly on `0 < a ≤ 1,000,000`
(`1,000,000.00` accepted, `1,000,000.01` rejected, with the constructor
raising the invalid-amount `ValueError`), while a non-numeric amount raises
a `TypeError`, a distinct error class. -/
theorem validate_amount_num (q : ℚ) :
    validate_transaction_amount (.num q) = .ok (decide (0 < q ∧ q ≤ 1000000)) := by
  show (if q ≤ 0 then (Except.ok false : Except CleanErr Bool)
      else if q > 1000000 then .ok false else .ok true) =
    .ok (decide (0 < q ∧ q ≤ 1000000))
  by_cases h0 : q ≤ 0
  · rw [if_pos h0]
    have hne : ¬(0 < q ∧ q ≤ 1000000) := fun h => absurd h.1 (not_lt.2 h0)
    rw [decide_eq_false hne]
  · rw [if_neg h0]
    by_cases h1 : q > 1000000
    · rw [if_pos h1]
      have hne : ¬(0 < q ∧ q ≤ 1000000) := fun h => absurd h.2 (not_le.2 h1)
      rw [decide_eq_false hne]
    · rw [if_neg h1]
      have hyes : 0 < q ∧ q ≤ 1000000 := ⟨not_le.1 h0, not_lt.1 h1⟩
      rw [decide_eq_true hyes]

theorem c6_amount_validation_boundary :
    (∀ q : ℚ, validate_transaction_amount (.num q) =
      .ok (decide (0 < q ∧ q ≤ 1000000))) ∧
    validate_transaction_amount (.num 1000000) = .ok true ∧
    validate_transaction_amount (.num (1000000 + 1 / 100)) = .ok false ∧
    (∀ s : PyStr, validate_transaction_amount (.str s) =
      .error (.typeErr "Amount must be a number")) ∧
    validate_transaction_amount Value.none =
      .error (.typeErr "Amount must be a number") ∧
    (∀ today tid date cat acc ty desc (q : ℚ), strip tid ≠ [] →
      ¬(0 < q ∧ q ≤ 1000000) →
      mkTransaction today tid (.num q) date cat acc ty desc =
        .error (.valueErr "Invalid amount")) ∧
    (∀ today tid date cat acc ty desc s, strip tid ≠ [] →
      mkTransaction today tid (.str s) date cat acc ty desc =
        .error (.typeErr "Amount must be a number")) ∧
    (TxnErr.typeErr "Amount must be a number" ≠ TxnErr.valueErr "Invalid amount") := by
  have hmil : validate_transaction_amount (.num 1000000) = .ok true := by
    rw [validate_amount_num]
    norm_num
  have hmil1 : validate_transaction_amount (.num (1000000 + 1 / 100)) = .ok false := by
    rw [validate_amount_num]
    norm_num
  refine ⟨validate_amount_num, hmil, hmil1, fun s => rfl, rfl, ?_, ?_, by decide⟩
  · intro today tid date cat acc ty desc q hid hq
    unfold mkTransaction
    rw [if_neg hid, validate_amount_num, decide_eq_false hq]
    rfl
  · intro today tid date cat acc ty desc s hid
    unfold mkTransaction
    rw [if_neg hid]
    rfl

/-- Concrete instance of C6: amount `-5` is rejected by the constructor with
the invalid-amount error, and a string amount raises the type error. -/
theorem c6_amount_validation_boundary_witness :
    strip (litS "T1") ≠ [] ∧ ¬((0 : ℚ) < -5 ∧ (-5 : ℚ) ≤ 1000000) ∧
    mkTransaction ⟨2025, 11, 15⟩ (litS "T1") (.num (-5)) (litS "2025-11-01")
        (litS "Food") (litS "A1") (litS "debit") [] =
      .error (.valueErr "Invalid amount") ∧
    mkTransaction ⟨2025, 11, 15⟩ (litS "T1") (.str (litS "fifty")) (litS "2025-11-01")
        (litS "Food") (litS "A1") (litS "debit") [] =
      .error (.typeErr "Amount must be a number") := by
  have h1 : strip (litS "T1") ≠ [] := by decide
  have h2 : ¬((0 : ℚ) < -5 ∧ (-5 : ℚ) ≤ 1000000) := by
    intro h
    norm_num at h
  exact ⟨h1, h2,
    (c6_amount_validation_boundary.2.2.2.2.2.1 _ _ _ _ _ _ _ _ h1 h2),
    (c6_amount_validation_boundary.2.2.2.2.2.2.1 _ _ _ _ _ _ _ _ h1)⟩

/-! ## Claim theorems: the large-transaction alert rule -/

/-- C9 fails as stated on `datacleaner.py`: a parseable amount of `-600`
with `abs` value above the threshold 500 produces no alert, because that
implementation compares the signed amount. -/
theorem c9_counterexample_no_abs :
    largeTransactionCheck 500 [("amount", Value.num (-600))] = Option.none ∧
    pyFloat? (Value.num (-600)) = some (-600) ∧
    |(-600 : ℚ)| ≥ 500 ∧
    p4LargeTransactionCheck 500 [("amount", Value.num (-600))] ≠ Option.none := by
  refine ⟨?_, rfl, by norm_num, ?_⟩
  · unfold largeTransactionCheck
    rw [show (getKey [("amount", Value.num (-600))] "amount").bind pyFloat? =
      some (-600) from rfl]
    show (if ((-600 : ℚ) ≥ 500) then some (litS "Large Transaction: " ++ numRepr (-600))
      else Option.none) = Option.none
    rw [if_neg (by norm_num : ¬((-600 : ℚ) ≥ 500))]
  · unfold p4LargeTransactionCheck
    rw [show (pyGetOr [("amount", Value.num (-600))] "amount" "Amount").bind pyFloat? =
      some (-600) from rfl]
    show (if (|(-600 : ℚ)| ≥ 500) then some (litS "Large Transaction: " ++ numRepr |(-600 : ℚ)|)
      else Option.none) ≠ Option.none
    rw [if_pos (by norm_num : |(-600 : ℚ)| ≥ 500)]
    simp

/-- C9 amended: the `datacleaner.py` rule alerts iff the `amount` value
parses to `q` with `q ≥ threshold` (signed, no `abs`); the final-version
rule alerts iff the value it retrieves parses to `q` with `|q| ≥ threshold`;
both silently return no alert when the amount is missing or unparseable. -/
theorem c9_large_transaction_rule_signed :
    (∀ (threshold : ℚ) (tx : Rec) (v : Value) (q : ℚ),
      getKey tx "amount" = some v → pyFloat? v = some q →
      ((largeTransactionCheck threshold tx).isSome ↔ q ≥ threshold)) ∧
    (∀ (threshold : ℚ) (tx : Rec),
      (getKey tx "amount" = Option.none ∨
        ∃ v, getKey tx "amount" = some v ∧ pyFloat? v = Option.none) →
      largeTransactionCheck threshold tx = Option.none) ∧
    (∀ (threshold : ℚ) (tx : Rec) (v : Value) (q : ℚ),
      pyGetOr tx "amount" "Amount" = some v → pyFloat? v = some q →
      ((p4LargeTransactionCheck threshold tx).isSome ↔ |q| ≥ threshold)) ∧
    (∀ (threshold : ℚ) (tx : Rec),
      (pyGetOr tx "amount" "Amount" = Option.none ∨
        ∃ v, pyGetOr tx "amount" "Amount" = some v ∧ pyFloat? v = Option.none) →
      p4LargeTransactionCheck threshold tx = Option.none) := by
  refine ⟨?_, ?_, ?_, ?_⟩
  · intro threshold tx v q hv hq
    unfold largeTransactionCheck
    rw [hv, show ∀ w : Value, (some w).bind pyFloat? = pyFloat? w from fun w => rfl, hq]
    by_cases h : q ≥ threshold
    · simp [h]
    · simp [h]
  · intro threshold tx h
    unfold largeTransactionCheck
    rcases h with h | ⟨v, hv, hp⟩
    · rw [h]
      rfl
    · rw [hv, show ∀ w : Value, (some w).bind pyFloat? = pyFloat? w from fun w => rfl, hp]
  · intro threshold tx v q hv hq
    unfold p4LargeTransactionCheck
    rw [hv, show ∀ w : Value, (some w).bind pyFloat? = pyFloat? w from fun w => rfl, hq]
    by_cases h : |q| ≥ threshold
    · simp [h]
    · simp [h]
  · intro threshold tx h
    unfold p4LargeTransactionCheck
    rcases h with h | ⟨v, hv, hp⟩
    · rw [h]
      rfl
    · rw [hv, show ∀ w : Value, (some w).bind pyFloat? = pyFloat? w from fun w => rfl, hp]

/-- Concrete instance of C9 amended: a numeric amount 600 at threshold 500
alerts under both rules, and an unparseable amount alerts under neither. -/
theorem c9_large_transaction_rule_signed_witness :
    ((largeTransactionCheck 500 [("amount", Value.num 600)]).isSome ↔
      (600 : ℚ) ≥ 500) ∧
    largeTransactionCheck 500 [("amount", Value.str (litS "n/a"))] = Option.none ∧
    ((p4LargeTransactionCheck 500 [("Amount", Value.num 600)]).isSome ↔
      |(600 : ℚ)| ≥ 500) ∧
    p4LargeTransactionCheck 500 [("Amount", Value.str (litS "n/a"))] = Option.none :=
  ⟨c9_large_transaction_rule_signed.1 500 _ (Value.num 600) 600 rfl rfl,
   c9_large_transaction_rule_signed.2.1 500 _
      (Or.inr ⟨Value.str (litS "n/a"), rfl, by decide⟩),
   c9_large_transaction_rule_signed.2.2.1 500 _ (Value.num 600) 600 rfl rfl,
   c9_large_transaction_rule_signed.2.2.2 500 _
      (Or.inr ⟨Value.str (litS "n/a"), rfl, by decide⟩)⟩

/-! ## Claim theorems: savings monthly fee purity -/

/-- A successfully constructed transaction carries the account id it was
given. -/
theorem mkTransaction_ok_accountId {today tid amount date cat acc ty desc} {t : Txn}
    (h : mkTransaction today tid amount date cat acc ty desc = .ok t) :
    t.accountId = acc := by
  unfold mkTransaction at h
  split at h
  · exact absurd h (by simp)
  · split at h
    · exact absurd h (by simp)
    · rename_i amountOk _
      split at h
      · exact absurd h (by simp)
      · split at h
        · exact absurd h (by simp)
        · split at h
          · exact absurd h (by simp)
          · rename_i categoryOk _
            split at h
            · exact absurd h (by simp)
            · split at h
              · exact absurd h (by simp)
              · split at h
                · exact absurd h (by simp)
                · split at h
                  · exact absurd h (by simp)
                  · injection h with h'
                    rw [← h']

/-- C8: `SavingsAccount.apply_monthly_fees` returns minus the rounded
monthly interest above the minimum balance and the flat low-balance fee
below it, never changes any state, and repeated calls keep returning the
same value; Checking and Credit, in contrast, append a synthetic fee or
interest transaction when their fee conditions hold. -/
theorem c8_savings_fee_reported_not_posted :
    (∀ s : SavingsState,
      (savingsApplyFees s).1 = s ∧
      (savingsApplyFees s).2 =
        (if savingsBalance s ≥ s.minimumBalance
          then -round2 (savingsBalance s * (s.interestRate / 12))
          else s.lowBalanceFee) ∧
      (savingsApplyFees (savingsApplyFees s).1).2 = (savingsApplyFees s).2 ∧
      savingsBalance (savingsApplyFees s).1 = savingsBalance s) ∧
    (∀ (s : SavingsState) (n : Nat) (today : Date) (feeId : PyStr),
      run (List.replicate n (.applyFees today feeId)) (.savings s) = .savings s) ∧
    (∀ (s : CheckingState) (today : Date) (feeId : PyStr) (t : Txn),
      checkingBalance s < s.minimumBalance →
      mkTransaction today feeId (.num s.monthlyFee) (formatIso today) (litS "Bank Fees")
        s.accountId (litS "debit") (litS "Monthly maintenance fee") = .ok t →
      (checkingApplyFees today feeId s).1.txns = s.txns ++ [t]) ∧
    (∀ (s : CreditState) (today : Date) (feeId : PyStr) (t : Txn),
      creditBalance s < 0 →
      0 < round2 (|creditBalance s| * (s.apr / 100 / 12)) →
      mkTransaction today feeId (.num (round2 (|creditBalance s| * (s.apr / 100 / 12))))
        (formatIso today) (litS "Interest") s.accountId (litS "debit")
        (litS "Monthly interest charge") = .ok t →
      (creditApplyFees today feeId s).1.txns = s.txns ++ [t] ∧
        (creditApplyFees today feeId s).1.totalInterestCharged =
          s.totalInterestCharged + round2 (|creditBalance s| * (s.apr / 100 / 12))) := by
  have hfst : ∀ s : SavingsState, (savingsApplyFees s).1 = s := by
    intro s
    unfold savingsApplyFees
    split <;> rfl
  refine ⟨fun s => ⟨hfst s, ?_, by rw [hfst], by rw [hfst]⟩, ?_, ?_, ?_⟩
  · unfold savingsApplyFees
    split <;> rfl
  · intro s n today feeId
    induction n with
    | zero => rfl
    | succ m ih =>
      rw [List.replicate_succ]
      show run (List.replicate m (.applyFees today feeId))
        (step (.applyFees today feeId) (.savings s)).1 = .savings s
      have hstep : (step (.applyFees today feeId) (.savings s)).1 = .savings s := by
        show (.savings (savingsApplyFees s).1 : AccountState) = .savings s
        rw [hfst]
      rw [hstep]
      exact ih
  · intro s today feeId t hbal hmk
    have hacc : t.accountId = s.accountId := mkTransaction_ok_accountId hmk
    have hne : ¬ t.accountId ≠ s.accountId := not_not_intro hacc
    unfold checkingApplyFees baseAdd
    rw [if_pos hbal, hmk]
    dsimp only
    rw [if_neg hne]
  · intro s today feeId t hbal hint hmk
    have hacc : t.accountId = s.accountId := mkTransaction_ok_accountId hmk
    have hne : ¬ t.accountId ≠ s.accountId := not_not_intro hacc
    unfold creditApplyFees baseAdd
    rw [if_neg (not_le.2 hbal), if_pos hint, hmk]
    dsimp only
    rw [if_neg hne]
    exact ⟨rfl, rfl⟩

/-- Concrete instance of C8: the demo checking account below its minimum
gets a Bank Fees debit appended; the demo credit account owing 200 at APR
12 gets a 2.00 Interest debit appended; the demo savings account state is
untouched by its fee calculation. -/
theorem c8_savings_fee_reported_not_posted_witness :
    checkingBalance c8ChkDemo < c8ChkDemo.minimumBalance ∧
    (checkingApplyFees ⟨2025, 11, 15⟩ (litS "FEE20251115") c8ChkDemo).1.txns =
      c8ChkDemo.txns ++
        [⟨litS "FEE20251115", 10, formatIso ⟨2025, 11, 15⟩, litS "Bank Fees",
          litS "ACC001", .debit, litS "Monthly maintenance fee"⟩] ∧
    creditBalance c8CrdDemo < 0 ∧
    (creditApplyFees ⟨2025, 11, 15⟩ (litS "INT20251115") c8CrdDemo).1.txns =
      c8CrdDemo.txns ++
        [⟨litS "INT20251115", 2, formatIso ⟨2025, 11, 15⟩, litS "Interest",
          litS "ACC003", .debit, litS "Monthly interest charge"⟩] := by
  have hbalc : checkingBalance c8ChkDemo = 300 := by
    simp [checkingBalance, sumSigned, c8ChkDemo, signedAmount]
  have hbalcr : creditBalance c8CrdDemo = -200 := by
    simp [creditBalance, sumSigned, c8CrdDemo, signedAmount]
  have hb1 : checkingBalance c8ChkDemo < c8ChkDemo.minimumBalance := by
    rw [hbalc]
    norm_num [c8ChkDemo]
  have hb2 : creditBalance c8CrdDemo < 0 := by
    rw [hbalcr]
    norm_num
  have hint : round2 (|creditBalance c8CrdDemo| * (c8CrdDemo.apr / 100 / 12)) = 2 := by
    rw [hbalcr]
    show round2 (|(-200 : ℚ)| * ((12 : ℚ) / 100 / 12)) = 2
    norm_num
    show ((roundHalfEven ((2 : ℚ) * 100) : ℚ) / 100 : ℚ) = 2
    norm_num [roundHalfEven]
  refine ⟨hb1, ?_, hb2, ?_⟩
  · refine c8_savings_fee_reported_not_posted.2.2.1 c8ChkDemo ⟨2025, 11, 15⟩
      (litS "FEE20251115") _ hb1 ?_
    show mkTransaction ⟨2025, 11, 15⟩ (litS "FEE20251115") (.num 10)
        (formatIso ⟨2025, 11, 15⟩) (litS "Bank Fees") (litS "ACC001") (litS "debit")
        (litS "Monthly maintenance fee") = .ok _
    decide
  · have h := c8_savings_fee_reported_not_posted.2.2.2 c8CrdDemo ⟨2025, 11, 15⟩
      (litS "INT20251115")
      ⟨litS "INT20251115", 2, formatIso ⟨2025, 11, 15⟩, litS "Interest",
        litS "ACC003", .debit, litS "Monthly interest charge"⟩ hb2
      (by rw [hint]; norm_num) ?_
    · exact h.1
    · rw [hint]
      show mkTransaction ⟨2025, 11, 15⟩ (litS "INT20251115") (.num 2)
        (formatIso ⟨2025, 11, 15⟩) (litS "Interest") (litS "ACC003") (litS "debit")
        (litS "Monthly interest charge") = .ok _
      decide

/-! ## Claim theorems: the balance invariant -/

theorem sumSigned_append (ts : List Txn) (t : Txn) :
    sumSigned (ts ++ [t]) = sumSigned ts + signedAmount t := by
  simp [sumSigned]

theorem baseAdd_ok {accId : PyStr} {ts : List Txn} {t : Txn} {out : List Txn}
    (h : baseAdd accId ts t = .ok out) : out = ts ++ [t] ∧ t.accountId = accId := by
  unfold baseAdd at h
  by_cases hm : t.accountId ≠ accId
  · rw [if_pos hm] at h
    exact absurd h (by simp)
  · rw [if_neg hm] at h
    exact ⟨by injection h with h'; exact h'.symm, not_not.1 hm⟩

theorem resetIfNewMonth_txns (now : Nat) (s : SavingsState) :
    (resetIfNewMonth now s).txns = s.txns ∧
      (resetIfNewMonth now s).accountId = s.accountId := by
  unfold resetIfNewMonth
  split <;> exact ⟨rfl, rfl⟩

/-- The state returned by a savings withdrawal check is either untouched or
month-reset. -/
theorem savingsCanWithdraw_state (now : Nat) (s : SavingsState) (amount : ℚ) :
    (savingsCanWithdraw now s amount).1 = s ∨
      (savingsCanWithdraw now s amount).1 = resetIfNewMonth now s := by
  unfold savingsCanWithdraw
  split
  · exact Or.inl rfl
  · dsimp only
    split
    · exact Or.inr rfl
    · split
      · exact Or.inr rfl
      · exact Or.inr rfl

theorem savingsCanWithdraw_fst (now : Nat) (s : SavingsState) (amount : ℚ) :
    ((savingsCanWithdraw now s amount).1).txns = s.txns ∧
      ((savingsCanWithdraw now s amount).1).accountId = s.accountId := by
  rcases savingsCanWithdraw_state now s amount with h | h
  · rw [h]
    exact ⟨rfl, rfl⟩
  · rw [h]
    exact resetIfNewMonth_txns now s

/-- Successful savings adds append the transaction and carry a matching
account id. -/
theorem savingsAdd_ok {now : Nat} {s : SavingsState} {t : Txn}
    (h : (savingsAdd now s t).2 = Option.none) :
    (savingsAdd now s t).1.txns = s.txns ++ [t] ∧ t.accountId = s.accountId := by
  unfold savingsAdd at h ⊢
  by_cases hneg : signedAmount t < 0
  · rw [if_pos hneg] at h ⊢
    rcases hcw : savingsCanWithdraw now s |signedAmount t| with ⟨s₁, allowed, reason⟩
    have hs₁ := savingsCanWithdraw_fst now s |signedAmount t|
    rw [hcw] at hs₁ h
    have hs₁t : s₁.txns = s.txns := hs₁.1
    have hs₁a : s₁.accountId = s.accountId := hs₁.2
    cases allowed with
    | false => simp at h
    | true =>
      dsimp only at h ⊢
      have e2 := resetIfNewMonth_txns now s₁
      cases hb : baseAdd (resetIfNewMonth now s₁).accountId (resetIfNewMonth now s₁).txns t with
      | error e =>
        rw [hb] at h
        simp at h
      | ok ts =>
        obtain ⟨hts, hacc⟩ := baseAdd_ok hb
        refine ⟨?_, ?_⟩
        · show ts = s.txns ++ [t]
          rw [hts, e2.1, hs₁t]
        · rw [hacc, e2.2, hs₁a]
  · rw [if_neg hneg] at h ⊢
    cases hb : baseAdd s.accountId s.txns t with
    | error e =>
      rw [hb] at h
      simp at h
    | ok ts =>
      obtain ⟨hts, hacc⟩ := baseAdd_ok hb
      exact ⟨hts, hacc⟩

/-- Successful adds at the polymorphic level append the transaction. -/
theorem stepAdd_ok {now : Nat} {t : Txn} {a : AccountState}
    (h : (step (.add now t) a).2 = Option.none) :
    txnsOf (step (.add now t) a).1 = txnsOf a ++ [t] := by
  cases a with
  | checking s =>
    simp only [step] at h ⊢
    cases hb : baseAdd s.accountId s.txns t with
    | error e =>
      rw [hb] at h
      simp at h
    | ok ts =>
      obtain ⟨hts, _⟩ := baseAdd_ok hb
      show ts = s.txns ++ [t]
      exact hts
  | savings s =>
    have h' : (savingsAdd now s t).2 = Option.none := h
    have hadd := savingsAdd_ok h'
    show (savingsAdd now s t).1.txns = s.txns ++ [t]
    exact hadd.1
  | credit s =>
    simp only [step] at h ⊢
    cases hb : baseAdd s.accountId s.txns t with
    | error e =>
      rw [hb] at h
      simp at h
    | ok ts =>
      obtain ⟨hts, _⟩ := baseAdd_ok hb
      show ts = s.txns ++ [t]
      exact hts

/-- C1: for every account variant the balance is computed on demand as the
sum of `signed_amount` over the owned transactions — after any sequence of
operations and after any single step — and a successful `add_transaction`
shifts the balance by exactly the transaction's signed amount. -/
theorem c1_balance_is_sum_of_signed_amounts :
    (∀ (ops : List AOp) (a : AccountState),
      balance (run ops a) = sumSigned (txnsOf (run ops a))) ∧
    (∀ (op : AOp) (a : AccountState),
      balance (step op a).1 = sumSigned (txnsOf (step op a).1)) ∧
    (∀ (now : Nat) (t : Txn) (a : AccountState),
      (step (.add now t) a).2 = Option.none →
      balance (step (.add now t) a).1 = balance a + signedAmount t) := by
  refine ⟨fun ops a => rfl, fun op a => rfl, fun now t a h => ?_⟩
  unfold balance
  rw [stepAdd_ok h, sumSigned_append]

/-- Concrete instance of C1: adding a 50 debit to an empty matching checking
account succeeds and moves the balance by its signed amount. -/
theorem c1_balance_is_sum_of_signed_amounts_witness :
    (step (.add 11 c1DemoTxn) (.checking c1Chk0)).2 = Option.none ∧
    balance (step (.add 11 c1DemoTxn) (.checking c1Chk0)).1 =
      balance (.checking c1Chk0) + signedAmount c1DemoTxn :=
  ⟨by decide, c1_balance_is_sum_of_signed_amounts.2.2 11 c1DemoTxn (.checking c1Chk0)
    (by decide)⟩

/-! ## Structural facts about each account operation -/

theorem savingsApplyFees_fst (s : SavingsState) : (savingsApplyFees s).1 = s := by
  unfold savingsApplyFees
  split <;> rfl

theorem savingsAdd_result (now : Nat) (s : SavingsState) (t : Txn) :
    (savingsAdd now s t).1.accountId = s.accountId ∧
    ((savingsAdd now s t).1.txns = s.txns ∨
      ((savingsAdd now s t).1.txns = s.txns ++ [t] ∧ t.accountId = s.accountId)) := by
  unfold savingsAdd
  by_cases hneg : signedAmount t < 0
  · rw [if_pos hneg]
    rcases hcw : savingsCanWithdraw now s |signedAmount t| with ⟨s₁, allowed, reason⟩
    have hs₁ := savingsCanWithdraw_fst now s |signedAmount t|
    rw [hcw] at hs₁
    have hs₁t : s₁.txns = s.txns := hs₁.1
    have hs₁a : s₁.accountId = s.accountId := hs₁.2
    cases allowed with
    | false => exact ⟨hs₁a, Or.inl hs₁t⟩
    | true =>
      dsimp only
      have e2 := resetIfNewMonth_txns now s₁
      cases hb : baseAdd (resetIfNewMonth now s₁).accountId (resetIfNewMonth now s₁).txns t with
      | error e =>
        refine ⟨?_, Or.inl ?_⟩
        · show (resetIfNewMonth now s₁).accountId = s.accountId
          rw [e2.2, hs₁a]
        · show (resetIfNewMonth now s₁).txns = s.txns
          rw [e2.1, hs₁t]
      | ok ts =>
        obtain ⟨hts, hacc⟩ := baseAdd_ok hb
        refine ⟨?_, Or.inr ⟨?_, ?_⟩⟩
        · show (resetIfNewMonth now s₁).accountId = s.accountId
          rw [e2.2, hs₁a]
        · show ts = s.txns ++ [t]
          rw [hts, e2.1, hs₁t]
        · rw [hacc, e2.2, hs₁a]
  · rw [if_neg hneg]
    cases hb : baseAdd s.accountId s.txns t with
    | error e => exact ⟨rfl, Or.inl rfl⟩
    | ok ts =>
      obtain ⟨hts, hacc⟩ := baseAdd_ok hb
      exact ⟨rfl, Or.inr ⟨hts, hacc⟩⟩

theorem checkingApplyFees_result (today : Date) (feeId : PyStr) (s : CheckingState) :
    (checkingApplyFees today feeId s).1.accountId = s.accountId ∧
    ((checkingApplyFees today feeId s).1.txns = s.txns ∨
      ∃ t', (checkingApplyFees today feeId s).1.txns = s.txns ++ [t'] ∧
        t'.accountId = s.accountId) := by
  unfold checkingApplyFees
  split
  · cases hmk : mkTransaction today feeId (.num s.monthlyFee) (formatIso today)
        (litS "Bank Fees") s.accountId (litS "debit") (litS "Monthly maintenance fee") with
    | error e => exact ⟨rfl, Or.inl rfl⟩
    | ok t' =>
      dsimp only
      cases hb : baseAdd s.accountId s.txns t' with
      | error e => exact ⟨rfl, Or.inl rfl⟩
      | ok ts =>
        obtain ⟨hts, hacc⟩ := baseAdd_ok hb
        exact ⟨rfl, Or.inr ⟨t', hts, hacc⟩⟩
  · exact ⟨rfl, Or.inl rfl⟩

theorem creditApplyFees_result (today : Date) (feeId : PyStr) (s : CreditState) :
    (creditApplyFees today feeId s).1.accountId = s.accountId ∧
    ((creditApplyFees today feeId s).1.txns = s.txns ∨
      ∃ t', (creditApplyFees today feeId s).1.txns = s.txns ++ [t'] ∧
        t'.accountId = s.accountId) := by
  unfold creditApplyFees
  split
  · exact ⟨rfl, Or.inl rfl⟩
  · dsimp only
    split
    · cases hmk : mkTransaction today feeId
          (.num (round2 (|creditBalance s| * (s.apr / 100 / 12)))) (formatIso today)
          (litS "Interest") s.accountId (litS "debit") (litS "Monthly interest charge") with
      | error e => exact ⟨rfl, Or.inl rfl⟩
      | ok t' =>
        dsimp only
        cases hb : baseAdd s.accountId s.txns t' with
        | error e => exact ⟨rfl, Or.inl rfl⟩
        | ok ts =>
          obtain ⟨hts, hacc⟩ := baseAdd_ok hb
          exact ⟨rfl, Or.inr ⟨t', hts, hacc⟩⟩
    · exact ⟨rfl, Or.inl rfl⟩

theorem checkingWriteCheck_result (today : Date) (n : Nat) (amount : ℚ) (payee : PyStr)
    (s : CheckingState) :
    (checkingWriteCheck today n amount payee s).1.accountId = s.accountId ∧
    ((checkingWriteCheck today n amount payee s).1.txns = s.txns ∨
      ∃ t', (checkingWriteCheck today n amount payee s).1.txns = s.txns ++ [t'] ∧
        t'.accountId = s.accountId) := by
  unfold checkingWriteCheck
  split
  · exact ⟨rfl, Or.inl rfl⟩
  · split
    · exact ⟨rfl, Or.inl rfl⟩
    · split
      · exact ⟨rfl, Or.inl rfl⟩
      · cases hmk : mkTransaction today (litS "CHK" ++ natRepr n) (.num amount)
            (formatIso today) (litS "Check Payment") s.accountId (litS "debit")
            (litS "Check #" ++ natRepr n ++ litS " to " ++ payee) with
        | error e => exact ⟨rfl, Or.inl rfl⟩
        | ok t' =>
          dsimp only
          cases hb : baseAdd s.accountId s.txns t' with
          | error e => exact ⟨rfl, Or.inl rfl⟩
          | ok ts =>
            obtain ⟨hts, hacc⟩ := baseAdd_ok hb
            exact ⟨rfl, Or.inr ⟨t', hts, hacc⟩⟩

/-- Operations never change the account id. -/
theorem stepId (op : AOp) (a : AccountState) :
    accountIdOf (step op a).1 = accountIdOf a := by
  cases op with
  | add now t =>
    cases a with
    | checking s =>
      simp only [step]
      cases hb : baseAdd s.accountId s.txns t with
      | error e => rfl
      | ok ts => rfl
    | savings s => exact (savingsAdd_result now s t).1
    | credit s =>
      simp only [step]
      cases hb : baseAdd s.accountId s.txns t with
      | error e => rfl
      | ok ts => rfl
  | applyFees today feeId =>
    cases a with
    | checking s => exact (checkingApplyFees_result today feeId s).1
    | savings s =>
      show (savingsApplyFees s).1.accountId = s.accountId
      rw [savingsApplyFees_fst]
    | credit s => exact (creditApplyFees_result today feeId s).1
  | writeCheck today n amount payee =>
    cases a with
    | checking s => exact (checkingWriteCheck_result today n amount payee s).1
    | savings s => rfl
    | credit s => rfl

/-- Each step either leaves the transaction list alone or appends a single
transaction carrying the account's own id. -/
theorem stepTxns (op : AOp) (a : AccountState) :
    txnsOf (step op a).1 = txnsOf a ∨
      ∃ t', txnsOf (step op a).1 = txnsOf a ++ [t'] ∧
        t'.accountId = accountIdOf a := by
  cases op with
  | add now t =>
    cases a with
    | checking s =>
      simp only [step]
      cases hb : baseAdd s.accountId s.txns t with
      | error e => exact Or.inl rfl
      | ok ts =>
        obtain ⟨hts, hacc⟩ := baseAdd_ok hb
        exact Or.inr ⟨t, hts, hacc⟩
    | savings s =>
      rcases (savingsAdd_result now s t).2 with h | ⟨h, hacc⟩
      · exact Or.inl h
      · exact Or.inr ⟨t, h, hacc⟩
    | credit s =>
      simp only [step]
      cases hb : baseAdd s.accountId s.txns t with
      | error e => exact Or.inl rfl
      | ok ts =>
        obtain ⟨hts, hacc⟩ := baseAdd_ok hb
        exact Or.inr ⟨t, hts, hacc⟩
  | applyFees today feeId =>
    cases a with
    | checking s =>
      rcases (checkingApplyFees_result today feeId s).2 with h | ⟨t', h, hacc⟩
      · exact Or.inl h
      · exact Or.inr ⟨t', h, hacc⟩
    | savings s =>
      refine Or.inl ?_
      show (savingsApplyFees s).1.txns = s.txns
      rw [savingsApplyFees_fst]
    | credit s =>
      rcases (creditApplyFees_result today feeId s).2 with h | ⟨t', h, hacc⟩
      · exact Or.inl h
      · exact Or.inr ⟨t', h, hacc⟩
  | writeCheck today n amount payee =>
    cases a with
    | checking s =>
      rcases (checkingWriteCheck_result today n amount payee s).2 with h | ⟨t', h, hacc⟩
      · exact Or.inl h
      · exact Or.inr ⟨t', h, hacc⟩
    | savings s => exact Or.inl rfl
    | credit s => exact Or.inl rfl

theorem stepInv (op : AOp) (a : AccountState) (hinv : accInv a) :
    accInv (step op a).1 := by
  intro t' ht'
  rw [stepId op a]
  rcases stepTxns op a with h | ⟨tn, h, hid⟩
  · rw [h] at ht'
    exact hinv t' ht'
  · rw [h] at ht'
    rcases List.mem_append.1 ht' with hmem | hmem
    · exact hinv t' hmem
    · rw [List.mem_singleton.1 hmem]
      exact hid

theorem runInv (ops : List AOp) (a : AccountState) (hinv : accInv a) :
    accInv (run ops a) := by
  induction ops generalizing a with
  | nil => exact hinv
  | cons op rest ih =>
    show accInv (run rest (step op a).1)
    exact ih (step op a).1 (stepInv op a hinv)

theorem resetIfNewMonth_idem (now : Nat) (s : SavingsState) :
    resetIfNewMonth now (resetIfNewMonth now s) = resetIfNewMonth now s := by
  by_cases h : s.lastWithdrawalMonth ≠ some now
  · simp only [resetIfNewMonth, if_pos h]
  · simp only [resetIfNewMonth, if_neg h]

/-- For a positive amount the withdrawal check always month-resets first. -/
theorem savingsCanWithdraw_pos_fst (now : Nat) (s : SavingsState) (amount : ℚ)
    (hpos : 0 < amount) :
    (savingsCanWithdraw now s amount).1 = resetIfNewMonth now s := by
  unfold savingsCanWithdraw
  rw [if_neg (not_le.2 hpos)]
  dsimp only
  split
  · rfl
  · split
    · rfl
    · rfl

/-- C7: (1) a mismatched-id transaction is never appended and raises an
error for every variant; (2) the ownership invariant holds in every state
reachable from an invariant-satisfying state; (3) a savings debit failing
`can_withdraw` is rejected with a withdrawal-denied error and no append;
(4) the monthly withdrawal counter is bumped exactly when `can_withdraw`
accepts a debit: plus one over the month-reset count on acceptance, no
increment on rejection, untouched for credits. -/
theorem c7_add_transaction_ownership_and_withdrawals :
    (∀ (now : Nat) (t : Txn) (a : AccountState), t.accountId ≠ accountIdOf a →
      txnsOf (step (.add now t) a).1 = txnsOf a ∧
        (step (.add now t) a).2 ≠ Option.none) ∧
    (∀ (ops : List AOp) (a : AccountState), accInv a → accInv (run ops a)) ∧
    (∀ (now : Nat) (s : SavingsState) (t : Txn), signedAmount t < 0 →
      (savingsCanWithdraw now s |signedAmount t|).2.1 = false →
      (savingsAdd now s t).1.txns = s.txns ∧
        (savingsAdd now s t).2 =
          some (.withdrawalDenied (savingsCanWithdraw now s |signedAmount t|).2.2)) ∧
    (∀ (now : Nat) (s : SavingsState) (t : Txn), signedAmount t < 0 →
      (savingsCanWithdraw now s |signedAmount t|).2.1 = true →
      (savingsAdd now s t).1.withdrawalCountThisMonth =
          (resetIfNewMonth now s).withdrawalCountThisMonth + 1 ∧
        (savingsAdd now s t).1.lastWithdrawalMonth = some now) ∧
    (∀ (now : Nat) (s : SavingsState) (t : Txn), signedAmount t < 0 →
      (savingsCanWithdraw now s |signedAmount t|).2.1 = false →
      (savingsAdd now s t).1.withdrawalCountThisMonth =
        ((savingsCanWithdraw now s |signedAmount t|).1).withdrawalCountThisMonth) ∧
    (∀ (now : Nat) (s : SavingsState) (t : Txn), ¬signedAmount t < 0 →
      (savingsAdd now s t).1.withdrawalCountThisMonth = s.withdrawalCountThisMonth ∧
        (savingsAdd now s t).1.lastWithdrawalMonth = s.lastWithdrawalMonth) := by
  refine ⟨?_, fun ops a h => runInv ops a h, ?_, ?_, ?_, ?_⟩
  · intro now t a hm
    cases a with
    | checking s =>
      have hm' : t.accountId ≠ s.accountId := hm
      have hb : baseAdd s.accountId s.txns t = .error .mismatch := by
        unfold baseAdd
        rw [if_pos hm']
      simp only [step]
      rw [hb]
      exact ⟨rfl, by simp⟩
    | credit s =>
      have hm' : t.accountId ≠ s.accountId := hm
      have hb : baseAdd s.accountId s.txns t = .error .mismatch := by
        unfold baseAdd
        rw [if_pos hm']
      simp only [step]
      rw [hb]
      exact ⟨rfl, by simp⟩
    | savings s =>
      have hm' : t.accountId ≠ s.accountId := hm
      show (savingsAdd now s t).1.txns = s.txns ∧ (savingsAdd now s t).2 ≠ Option.none
      unfold savingsAdd
      by_cases hneg : signedAmount t < 0
      · rw [if_pos hneg]
        rcases hcw : savingsCanWithdraw now s |signedAmount t| with ⟨s₁, allowed, reason⟩
        have hs₁ := savingsCanWithdraw_fst now s |signedAmount t|
        rw [hcw] at hs₁
        have hs₁t : s₁.txns = s.txns := hs₁.1
        have hs₁a : s₁.accountId = s.accountId := hs₁.2
        cases allowed with
        | false => exact ⟨hs₁t, by simp⟩
        | true =>
          dsimp only
          have e2 := resetIfNewMonth_txns now s₁
          have hb : baseAdd (resetIfNewMonth now s₁).accountId
              (resetIfNewMonth now s₁).txns t = .error .mismatch := by
            unfold baseAdd
            rw [if_pos (by rw [e2.2, hs₁a]; exact hm')]
          rw [hb]
          refine ⟨?_, by simp⟩
          show (resetIfNewMonth now s₁).txns = s.txns
          rw [e2.1, hs₁t]
      · rw [if_neg hneg]
        have hb : baseAdd s.accountId s.txns t = .error .mismatch := by
          unfold baseAdd
          rw [if_pos hm']
        rw [hb]
        exact ⟨rfl, by simp⟩
  · intro now s t hneg hfail
    unfold savingsAdd
    rw [if_pos hneg]
    rcases hcw : savingsCanWithdraw now s |signedAmount t| with ⟨s₁, allowed, reason⟩
    have hs₁ := savingsCanWithdraw_fst now s |signedAmount t|
    rw [hcw] at hs₁ hfail
    have hfalse : allowed = false := hfail
    subst hfalse
    exact ⟨hs₁.1, rfl⟩
  · intro now s t hneg hok
    have hpos : (0 : ℚ) < |signedAmount t| := abs_pos.2 (ne_of_lt hneg)
    have hfst : (savingsCanWithdraw now s |signedAmount t|).1 = resetIfNewMonth now s :=
      savingsCanWithdraw_pos_fst now s _ hpos
    unfold savingsAdd
    rw [if_pos hneg]
    rcases hcw : savingsCanWithdraw now s |signedAmount t| with ⟨s₁, allowed, reason⟩
    rw [hcw] at hok hfst
    have htrue : allowed = true := hok
    subst htrue
    have hs₁ : s₁ = resetIfNewMonth now s := hfst
    subst hs₁
    dsimp only
    rw [resetIfNewMonth_idem]
    cases hb : baseAdd (resetIfNewMonth now s).accountId (resetIfNewMonth now s).txns t with
    | error e => exact ⟨rfl, rfl⟩
    | ok ts => exact ⟨rfl, rfl⟩
  · intro now s t hneg hfail
    unfold savingsAdd
    rw [if_pos hneg]
    rcases hcw : savingsCanWithdraw now s |signedAmount t| with ⟨s₁, allowed, reason⟩
    rw [hcw] at hfail
    have hfalse : allowed = false := hfail
    subst hfalse
    rfl
  · intro now s t hneg
    unfold savingsAdd
    rw [if_neg hneg]
    cases hb : baseAdd s.accountId s.txns t with
    | error e => exact ⟨rfl, rfl⟩
    | ok ts => exact ⟨rfl, rfl⟩

/-- Concrete instance of C7: a mismatched transaction is not appended; the
invariant is preserved through a run; an insufficient-funds savings debit is
rejected; an accepted savings debit bumps the monthly counter. -/
theorem c7_add_transaction_ownership_and_withdrawals_witness :
    c7MismatchTxn.accountId ≠ accountIdOf (.checking c7Chk0) ∧
    txnsOf (step (.add 11 c7MismatchTxn) (.checking c7Chk0)).1 =
      txnsOf (.checking c7Chk0) ∧
    accInv (run [.add 11 c7MismatchTxn] (.checking c7Chk0)) ∧
    signedAmount c7DebitLow < 0 ∧
    (savingsCanWithdraw 11 c7SavLow |signedAmount c7DebitLow|).2.1 = false ∧
    (savingsAdd 11 c7SavLow c7DebitLow).1.txns = c7SavLow.txns ∧
    signedAmount c7DebitOk < 0 ∧
    (savingsCanWithdraw 11 c7SavOk |signedAmount c7DebitOk|).2.1 = true ∧
    (savingsAdd 11 c7SavOk c7DebitOk).1.withdrawalCountThisMonth =
      (resetIfNewMonth 11 c7SavOk).withdrawalCountThisMonth + 1 := by
  have hm : c7MismatchTxn.accountId ≠ accountIdOf (.checking c7Chk0) := by decide
  have hinv0 : accInv (.checking c7Chk0) := by
    intro t ht
    exact absurd ht (List.not_mem_nil t)
  have hdc : ¬(TType.debit = TType.credit) := by decide
  have hneg1 : signedAmount c7DebitLow < 0 := by
    norm_num [signedAmount, c7DebitLow, hdc]
  have habs1 : |signedAmount c7DebitLow| = 50 := by
    norm_num [signedAmount, c7DebitLow, hdc]
  have hlow : (savingsCanWithdraw 11 c7SavLow |signedAmount c7DebitLow|).2.1 = false := by
    rw [habs1]
    norm_num [savingsCanWithdraw, resetIfNewMonth, savingsAvailable, savingsBalance,
      sumSigned, c7SavLow, max_def]
  have hneg2 : signedAmount c7DebitOk < 0 := by
    norm_num [signedAmount, c7DebitOk, hdc]
  have habs2 : |signedAmount c7DebitOk| = 50 := by
    norm_num [signedAmount, c7DebitOk, hdc]
  have hok : (savingsCanWithdraw 11 c7SavOk |signedAmount c7DebitOk|).2.1 = true := by
    rw [habs2]
    norm_num [savingsCanWithdraw, resetIfNewMonth, savingsAvailable, savingsBalance,
      sumSigned, signedAmount, c7SavOk, max_def]
  exact ⟨hm,
    (c7_add_transaction_ownership_and_withdrawals.1 11 c7MismatchTxn (.checking c7Chk0) hm).1,
    c7_add_transaction_ownership_and_withdrawals.2.1 [.add 11 c7MismatchTxn]
      (.checking c7Chk0) hinv0,
    hneg1, hlow,
    (c7_add_transaction_ownership_and_withdrawals.2.2.1 11 c7SavLow c7DebitLow hneg1 hlow).1,
    hneg2, hok,
    (c7_add_transaction_ownership_and_withdrawals.2.2.2.1 11 c7SavOk c7DebitOk hneg2 hok).1⟩

/-! ## Case-mapping lemmas for the category standardizer -/

theorem asciiLower_asciiUpper (c : Nat) : asciiLower (asciiUpper c) = asciiLower c := by
  unfold asciiLower asciiUpper
  split_ifs <;> omega

theorem asciiLower_idem (c : Nat) : asciiLower (asciiLower c) = asciiLower c := by
  unfold asciiLower
  split_ifs <;> omega

theorem asciiUpper_idem (c : Nat) : asciiUpper (asciiUpper c) = asciiUpper c := by
  unfold asciiUpper
  split_ifs <;> omega

theorem asciiUpper_asciiLower (c : Nat) : asciiUpper (asciiLower c) = asciiUpper c := by
  unfold asciiUpper asciiLower
  split_ifs <;> omega

theorem isAlphaN_asciiUpper (c : Nat) : isAlphaN (asciiUpper c) = isAlphaN c := by
  apply Bool.coe_iff_coe.1
  unfold isAlphaN asciiUpper
  simp only [Bool.or_eq_true, Bool.and_eq_true, decide_eq_true_eq]
  split_ifs <;> omega

theorem isAlphaN_asciiLower (c : Nat) : isAlphaN (asciiLower c) = isAlphaN c := by
  apply Bool.coe_iff_coe.1
  unfold isAlphaN asciiLower
  simp only [Bool.or_eq_true, Bool.and_eq_true, decide_eq_true_eq]
  split_ifs <;> omega

theorem isSpace_asciiUpper (c : Nat) : isSpace (asciiUpper c) = isSpace c := by
  apply Bool.coe_iff_coe.1
  unfold isSpace asciiUpper
  simp only [Bool.or_eq_true, Bool.and_eq_true, decide_eq_true_eq, beq_iff_eq]
  split_ifs <;> omega

theorem isSpace_asciiLower (c : Nat) : isSpace (asciiLower c) = isSpace c := by
  apply Bool.coe_iff_coe.1
  unfold isSpace asciiLower
  simp only [Bool.or_eq_true, Bool.and_eq_true, decide_eq_true_eq, beq_iff_eq]
  split_ifs <;> omega

/-- Equation lemma folding both branches of the title-caser step. -/
theorem titleGo_cons (b : Bool) (c : Nat) (cs : PyStr) :
    titleGo b (c :: cs) =
      (if isAlphaN c = true then (if b = true then asciiLower c else asciiUpper c) else c) ::
        titleGo (isAlphaN c) cs := by
  rw [show titleGo b (c :: cs) =
    (if isAlphaN c = true then
      ((if b = true then asciiLower c else asciiUpper c) :: titleGo true cs)
    else c :: titleGo false cs) from rfl]
  by_cases h : isAlphaN c = true
  · rw [if_pos h, if_pos h, h]
  · have h' : isAlphaN c = false := Bool.not_eq_true _ |>.mp h
    rw [if_neg h, if_neg h, h']

theorem titleGo_idem (s : PyStr) : ∀ b : Bool, titleGo b (titleGo b s) = titleGo b s := by
  induction s with
  | nil => intro b; rfl
  | cons c cs ih =>
    intro b
    by_cases ha : isAlphaN c = true <;> cases b <;>
      simp [titleGo_cons, ha, isAlphaN_asciiUpper, isAlphaN_asciiLower,
        asciiUpper_idem, asciiLower_idem, ih]

theorem lowerS_cons (c : Nat) (cs : PyStr) :
    lowerS (c :: cs) = asciiLower c :: lowerS cs := rfl

theorem lowerS_titleGo (s : PyStr) : ∀ b : Bool, lowerS (titleGo b s) = lowerS s := by
  induction s with
  | nil => intro b; rfl
  | cons c cs ih =>
    intro b
    by_cases ha : isAlphaN c = true <;> cases b <;>
      simp [titleGo_cons, lowerS_cons, ha, asciiLower_asciiUpper, asciiLower_idem, ih]

theorem isSpace_of_isAlphaN {c : Nat} (hs : isSpace c = true) : isAlphaN c = false := by
  rw [Bool.eq_false_iff]
  intro hAlpha
  unfold isSpace at hs
  unfold isAlphaN at hAlpha
  simp only [Bool.or_eq_true, Bool.and_eq_true, decide_eq_true_eq, beq_iff_eq] at hs hAlpha
  omega

theorem dropWhile_titleGo (s : PyStr) :
    (titleGo false s).dropWhile isSpace = titleGo false (s.dropWhile isSpace) := by
  induction s with
  | nil => rfl
  | cons c cs ih =>
    by_cases hs : isSpace c = true
    · have ha : isAlphaN c = false := isSpace_of_isAlphaN hs
      simp [titleGo_cons, ha, hs, List.dropWhile_cons, ih]
    · have hs' : isSpace c = false := Bool.not_eq_true _ |>.mp hs
      by_cases ha : isAlphaN c = true <;>
        simp [titleGo_cons, List.dropWhile_cons, ha, hs', isSpace_asciiUpper,
          isSpace_asciiLower]

theorem titleGo_nonempty (b : Bool) (s : PyStr) :
    (titleGo b s).isEmpty = s.isEmpty := by
  cases s with
  | nil => rfl
  | cons c cs => rw [titleGo_cons]; rfl

theorem dropTrailSpace_cons (c : Nat) (cs : PyStr) :
    dropTrailSpace (c :: cs) =
      if isSpace c && (dropTrailSpace cs).isEmpty then [] else c :: dropTrailSpace cs := rfl

theorem dropTrailSpace_titleGo (s : PyStr) : ∀ b : Bool,
    dropTrailSpace (titleGo b s) = titleGo b (dropTrailSpace s) := by
  induction s with
  | nil => intro b; rfl
  | cons c cs ih =>
    intro b
    have hsp : isSpace (if isAlphaN c = true then
        (if b = true then asciiLower c else asciiUpper c) else c) = isSpace c := by
      by_cases ha : isAlphaN c = true <;> cases b <;>
        simp [ha, isSpace_asciiUpper, isSpace_asciiLower]
    rw [titleGo_cons, dropTrailSpace_cons, dropTrailSpace_cons, ih (isAlphaN c),
      titleGo_nonempty, hsp]
    by_cases hcond : (isSpace c && (dropTrailSpace cs).isEmpty) = true
    · rw [if_pos hcond, if_pos hcond]
      rfl
    · rw [if_neg hcond, if_neg hcond, titleGo_cons]

/-- Stripping commutes with title-casing. -/
theorem strip_titleS (s : PyStr) : strip (titleS s) = titleS (strip s) := by
  unfold strip titleS
  rw [dropWhile_titleGo, dropTrailSpace_titleGo]

theorem dropTrailSpace_idem (s : PyStr) : dropTrailSpace (dropTrailSpace s) = dropTrailSpace s := by
  induction s with
  | nil => rfl
  | cons c cs ih =>
    show dropTrailSpace (if isSpace c && (dropTrailSpace cs).isEmpty then []
      else c :: dropTrailSpace cs) = _
    by_cases hcond : (isSpace c && (dropTrailSpace cs).isEmpty) = true
    · rw [if_pos hcond]
      show ([] : PyStr) = _
      rw [show dropTrailSpace (c :: cs) = if isSpace c && (dropTrailSpace cs).isEmpty then []
        else c :: dropTrailSpace cs from rfl, if_pos hcond]
    · rw [if_neg hcond]
      show (if isSpace c && (dropTrailSpace (dropTrailSpace cs)).isEmpty then []
        else c :: dropTrailSpace (dropTrailSpace cs)) = _
      rw [ih, if_neg hcond]
      rw [show dropTrailSpace (c :: cs) = if isSpace c && (dropTrailSpace cs).isEmpty then []
        else c :: dropTrailSpace cs from rfl, if_neg hcond]

theorem dropTrailSpace_head (s : PyStr) :
    dropTrailSpace s = [] ∨ (dropTrailSpace s).head? = s.head? := by
  cases s with
  | nil => exact Or.inl rfl
  | cons c cs =>
    rw [dropTrailSpace_cons]
    by_cases hcond : (isSpace c && (dropTrailSpace cs).isEmpty) = true
    · rw [if_pos hcond]
      exact Or.inl rfl
    · rw [if_neg hcond]
      exact Or.inr rfl

theorem dropWhile_eq_self_of_head {p : Nat → Bool} {s : PyStr}
    (h : ∀ c, s.head? = some c → p c = false) : s.dropWhile p = s := by
  cases s with
  | nil => rfl
  | cons c cs => exact List.dropWhile_cons_of_neg (by simp [h c rfl])

theorem head_dropWhile_not {p : Nat → Bool} (s : PyStr) :
    ∀ c, (s.dropWhile p).head? = some c → p c = false := by
  induction s with
  | nil => intro c h; exact absurd h (by simp)
  | cons a as ih =>
    intro c h
    by_cases hp : p a = true
    · rw [List.dropWhile_cons_of_pos hp] at h
      exact ih c h
    · rw [List.dropWhile_cons_of_neg hp] at h
      injection h with h'
      rw [← h']
      exact Bool.not_eq_true _ |>.mp hp

/-- Stripping is idempotent. -/
theorem strip_idem (s : PyStr) : strip (strip s) = strip s := by
  unfold strip
  have h1 : (dropTrailSpace (s.dropWhile isSpace)).dropWhile isSpace =
      dropTrailSpace (s.dropWhile isSpace) := by
    rcases dropTrailSpace_head (s.dropWhile isSpace) with h | h
    · rw [h]
      rfl
    · apply dropWhile_eq_self_of_head
      intro c hc
      rw [h] at hc
      exact head_dropWhile_not s c hc
  rw [h1, dropTrailSpace_idem]

/-! ## Category idempotence (C4) -/

theorem not_hasKey_forall {r : Rec} {k : String} (h : ¬ hasKey r k) :
    ∀ p ∈ r, p.1 ≠ k := by
  induction r with
  | nil =>
    intro p hp
    exact absurd hp (List.not_mem_nil p)
  | cons q rest ih =>
    obtain ⟨qk, qv⟩ := q
    intro p hp
    by_cases hq : qk = k
    · subst hq
      exact absurd (by simp [hasKey, getKey_cons]) h
    · have h' : ¬ hasKey rest k := by
        simp only [hasKey, getKey_cons, if_neg hq] at h
        exact h
      rcases List.mem_cons.1 hp with rfl | hp'
      · exact hq
      · exact ih h' p hp'

theorem mem_setKey_key_eq {r : Rec} {k : String} {v : Value} {p : String × Value}
    (hp : p ∈ setKey r k v) (hpk : p.1 = k) : p = (k, v) := by
  by_cases hk : hasKey r k
  · unfold setKey at hp
    rw [if_pos hk] at hp
    rcases List.mem_map.1 hp with ⟨q, hq, hpq⟩
    by_cases hqk : q.1 = k
    · rw [if_pos hqk] at hpq
      exact hpq.symm
    · rw [if_neg hqk] at hpq
      rw [← hpq] at hpk
      exact absurd hpk hqk
  · unfold setKey at hp
    rw [if_neg hk] at hp
    rcases List.mem_append.1 hp with h | h
    · exact absurd hpk (not_hasKey_forall hk p h)
    · simpa using h

theorem getKey_eraseKey_self (r : Rec) (k : String) :
    getKey (eraseKey r k) k = Option.none := by
  induction r with
  | nil => rfl
  | cons q rest ih =>
    obtain ⟨qk, qv⟩ := q
    unfold eraseKey at ih ⊢
    by_cases hq : qk = k
    · rw [List.filter_cons_of_neg (by simp [hq])]
      exact ih
    · rw [List.filter_cons_of_pos (by simp [hq]), getKey_cons, if_neg hq]
      exact ih

theorem titleS_ne_nil {s : PyStr} (h : s ≠ []) : titleS s ≠ [] := by
  cases s with
  | nil => exact absurd rfl h
  | cons c cs =>
    intro hnil
    rw [show titleS (c :: cs) = titleGo false (c :: cs) from rfl, titleGo_cons] at hnil
    exact List.cons_ne_nil _ _ hnil

theorem lowerS_idem (s : PyStr) : lowerS (lowerS s) = lowerS s := by
  induction s with
  | nil => rfl
  | cons c cs ih => simp only [lowerS_cons, asciiLower_idem, ih]

theorem lowerS_isEmpty (s : PyStr) : (lowerS s).isEmpty = s.isEmpty := by
  cases s with
  | nil => rfl
  | cons c cs => rfl

theorem dropWhile_lowerS (s : PyStr) :
    (lowerS s).dropWhile isSpace = lowerS (s.dropWhile isSpace) := by
  induction s with
  | nil => rfl
  | cons c cs ih =>
    by_cases hs : isSpace c = true
    · have h2 : isSpace (asciiLower c) = true := by rw [isSpace_asciiLower]; exact hs
      rw [lowerS_cons, List.dropWhile_cons_of_pos h2, List.dropWhile_cons_of_pos hs, ih]
    · have h2 : ¬ isSpace (asciiLower c) = true := by rw [isSpace_asciiLower]; exact hs
      rw [lowerS_cons, List.dropWhile_cons_of_neg h2, List.dropWhile_cons_of_neg hs,
        lowerS_cons]

theorem dropTrailSpace_lowerS (s : PyStr) :
    dropTrailSpace (lowerS s) = lowerS (dropTrailSpace s) := by
  induction s with
  | nil => rfl
  | cons c cs ih =>
    rw [lowerS_cons, dropTrailSpace_cons, dropTrailSpace_cons, ih, isSpace_asciiLower,
      lowerS_isEmpty]
    by_cases hcond : (isSpace c && (dropTrailSpace cs).isEmpty) = true
    · rw [if_pos hcond, if_pos hcond]
      rfl
    · rw [if_neg hcond, if_neg hcond, lowerS_cons]

theorem strip_lowerS (s : PyStr) : strip (lowerS s) = lowerS (strip s) := by
  unfold strip
  rw [dropWhile_lowerS, dropTrailSpace_lowerS]

theorem lookupMapping_mem {s v : PyStr} (h : lookupMapping s = some v) :
    v ∈ canonical12 := by
  have hall : ∀ q ∈ categoryMapping, q.2 ∈ canonical12 := by decide
  unfold lookupMapping at h
  cases hf : categoryMapping.find? (fun p => p.1 == s) with
  | none =>
    rw [hf] at h
    exact absurd h (by simp)
  | some p =>
    rw [hf] at h
    have hp : p.2 = v := by simpa using h
    rw [← hp]
    exact hall p (List.mem_of_find?_eq_some hf)

/-- Every canonical category is a nonempty fixed point of the standardizer. -/
theorem canonical_fixed :
    ∀ c ∈ canonical12,
      lowerS (strip c) ≠ [] ∧ stdOf (lowerS (strip c)) (Value.str c) = c := by
  decide

/-- Reduction of the standardizer past a failed exact-table lookup. -/
theorem stdOf_none (s : PyStr) (raw : Value) (hf : lookupMapping s = Option.none) :
    stdOf s raw =
      (if containsSub (litS "subscr") s = true then litS "Subscription"
       else if containsSub (litS "groc") s = true then litS "Groceries"
       else if (containsSub (litS "restaur") s || containsSub (litS "dining") s ||
           containsSub (litS "cafe") s || containsSub (litS "coffee") s ||
           containsSub (litS "food") s) = true then litS "Food"
       else if (containsSub (litS "transport") s || containsSub (litS "uber") s ||
           containsSub (litS "lyft") s || containsSub (litS "gas") s ||
           containsSub (litS "fuel") s) = true then litS "Transportation"
       else if (containsSub (litS "utilit") s || containsSub (litS "internet") s ||
           containsSub (litS "electric") s ||
           containsSub (litS "water") s) = true then litS "Utilities"
       else if (containsSub (litS "retail") s ||
           containsSub (litS "shop") s) = true then litS "Shopping"
       else if (containsSub (litS "health") s ||
           containsSub (litS "care") s) = true then litS "Healthcare"
       else if (containsSub (litS "loan") s ||
           containsSub (litS "debt") s) = true then litS "Debt"
       else if (containsSub (litS "salary") s || containsSub (litS "pay") s ||
           containsSub (litS "income") s) = true then litS "Income"
       else titleS (strip (pyStrOf raw))) := by
  unfold stdOf
  rw [hf]

/-- The standardizer yields a canonical category, or else falls through to
the title-cased raw value uniformly in the raw value. -/
theorem stdOf_cases (s : PyStr) (raw : Value) :
    stdOf s raw ∈ canonical12 ∨
    (∀ r' : Value, stdOf s r' = titleS (strip (pyStrOf r'))) := by
  cases hf : lookupMapping s with
  | some v =>
    left
    have h1 : stdOf s raw = v := by
      unfold stdOf
      rw [hf]
    rw [h1]
    exact lookupMapping_mem hf
  | none =>
    rw [stdOf_none s raw hf]
    split_ifs with h1 h2 h3 h4 h5 h6 h7 h8 h9
    · exact Or.inl (by decide)
    · exact Or.inl (by decide)
    · exact Or.inl (by decide)
    · exact Or.inl (by decide)
    · exact Or.inl (by decide)
    · exact Or.inl (by decide)
    · exact Or.inl (by decide)
    · exact Or.inl (by decide)
    · exact Or.inl (by decide)
    · refine Or.inr fun r' => ?_
      rw [stdOf_none s r' hf, if_neg h1, if_neg h2, if_neg h3, if_neg h4, if_neg h5,
        if_neg h6, if_neg h7, if_neg h8, if_neg h9]

/-- The value written by the standardizer is itself standardized to itself. -/
theorem stdOf_fixed {s : PyStr} {raw : Value}
    (hs : s = lowerS (strip (pyStrOf raw))) (hne : s ≠ []) :
    lowerS (strip (stdOf s raw)) ≠ [] ∧
    stdOf (lowerS (strip (stdOf s raw))) (Value.str (stdOf s raw)) = stdOf s raw := by
  rcases stdOf_cases s raw with hmem | hfall
  · exact canonical_fixed _ hmem
  · have hc : stdOf s raw = titleS (strip (pyStrOf raw)) := hfall raw
    have hstripc : strip (stdOf s raw) = stdOf s raw := by
      rw [hc, strip_titleS, strip_idem]
    have hlow : lowerS (strip (stdOf s raw)) = s := by
      rw [hstripc, hc, hs]
      exact lowerS_titleGo (strip (pyStrOf raw)) false
    refine ⟨by rw [hlow]; exact hne, ?_⟩
    rw [hlow, hfall (Value.str (stdOf s raw))]
    show titleS (strip (stdOf s raw)) = stdOf s raw
    rw [hstripc, hc]
    exact titleGo_idem (strip (pyStrOf raw)) false

theorem p4LookupCategory_mem {s v : PyStr} (h : p4LookupCategory s = some v) :
    ∃ p ∈ p4CategoryMapping, p.2 = v := by
  unfold p4LookupCategory at h
  cases hf : p4CategoryMapping.find? (fun q => q.1 == s) with
  | none =>
    rw [hf] at h
    exact absurd h (by simp)
  | some p =>
    rw [hf] at h
    exact ⟨p, List.mem_of_find?_eq_some hf, by simpa using h⟩

/-- The value written by the final-version standardizer is nonempty and maps
to itself on a second pass. -/
theorem p4StdOf_fixed (z : PyStr) :
    p4StdOf (strip (lowerS z)) ≠ [] ∧
    p4StdOf (strip (lowerS (p4StdOf (strip (lowerS z))))) = p4StdOf (strip (lowerS z)) := by
  have hlow : lowerS (strip (lowerS z)) = strip (lowerS z) := by
    rw [strip_lowerS, lowerS_idem, ← strip_lowerS]
  have hstrip : strip (strip (lowerS z)) = strip (lowerS z) := strip_idem _
  cases hf : p4LookupCategory (strip (lowerS z)) with
  | some v =>
    have h1 : p4StdOf (strip (lowerS z)) = v := by
      unfold p4StdOf
      rw [hf]
    obtain ⟨p, hpmem, hp2⟩ := p4LookupCategory_mem hf
    have hall : ∀ q ∈ p4CategoryMapping,
        q.2 ≠ [] ∧ p4StdOf (strip (lowerS q.2)) = q.2 := by decide
    rw [h1, ← hp2]
    exact hall p hpmem
  | none =>
    by_cases hemp : strip (lowerS z) = []
    · have h1 : p4StdOf (strip (lowerS z)) = litS "Other" := by
        unfold p4StdOf
        rw [hf, if_pos hemp]
      rw [h1]
      exact ⟨by decide, by decide⟩
    · have h1 : p4StdOf (strip (lowerS z)) = titleS (strip (lowerS z)) := by
        unfold p4StdOf
        rw [hf, if_neg hemp]
      rw [h1]
      have hback : strip (lowerS (titleS (strip (lowerS z)))) = strip (lowerS z) := by
        have ht : lowerS (titleS (strip (lowerS z))) = lowerS (strip (lowerS z)) :=
          lowerS_titleGo (strip (lowerS z)) false
        rw [ht, hlow, hstrip]
      constructor
      · exact titleS_ne_nil hemp
      · rw [hback]
        exact h1

/-- C4: category standardization is idempotent. For `library_name.py`, a
successful `standardize_category_names` yields a record on which a second
application succeeds and returns the record unchanged, and the value it
writes under `category` is a fixed point of the standardizer — either one of
the twelve canonical categories or the title-cased stripped raw value. The
final-version standardizer is idempotent on every record. -/
theorem c4_standardize_category_idempotent :
    (∀ row out : Rec, standardize_category_names row = Except.ok out →
      standardize_category_names out = Except.ok out ∧
      ∃ c : PyStr, getKey out "category" = some (Value.str c) ∧
        stdOf (lowerS (strip c)) (Value.str c) = c ∧
        (c ∈ canonical12 ∨ ∃ raw : Value, c = titleS (strip (pyStrOf raw)))) ∧
    (∀ row : Rec,
      p4_standardize_category_names (p4_standardize_category_names row) =
        p4_standardize_category_names row) := by
  constructor
  · intro row out h
    unfold standardize_category_names at h
    cases hg : get2 row "category" "Category" with
    | none =>
      rw [hg] at h
      exact absurd h (by simp)
    | some raw =>
      rw [hg] at h
      dsimp only at h
      by_cases hne : lowerS (strip (pyStrOf raw)) = []
      · rw [if_pos hne] at h
        exact absurd h (by simp)
      · rw [if_neg hne] at h
        obtain ⟨c, hc⟩ : ∃ c, stdOf (lowerS (strip (pyStrOf raw))) raw = c := ⟨_, rfl⟩
        have hout : out = eraseKey (setKey row "category" (Value.str c)) "Category" := by
          rw [← hc]
          exact (Except.ok.inj h).symm
        obtain ⟨hne₂, hfixed⟩ := stdOf_fixed rfl hne
        rw [hc] at hne₂ hfixed
        have hcases := stdOf_cases (lowerS (strip (pyStrOf raw))) raw
        rw [hc] at hcases
        have hcat : getKey out "category" = some (Value.str c) := by
          rw [hout, getKey_eraseKey_ne _ (by decide), getKey_setKey_self]
        have hkeyeq : ∀ p ∈ out, p.1 = "category" → p = ("category", Value.str c) := by
          intro p hp hpk
          rw [hout] at hp
          exact mem_setKey_key_eq (mem_eraseKey hp).1 hpk
        have hnocat : ∀ p ∈ out, p.1 ≠ "Category" := by
          intro p hp
          rw [hout] at hp
          exact (mem_eraseKey hp).2
        have hk2 : hasKey out "category" := by
          unfold hasKey
          rw [hcat]
          rfl
        refine ⟨?_, c, hcat, hfixed, ?_⟩
        · unfold standardize_category_names
          have hg2 : get2 out "category" "Category" = some (Value.str c) := by
            unfold get2
            rw [hcat]
          rw [hg2]
          dsimp only [pyStrOf]
          rw [if_neg hne₂, hfixed]
          rw [setKey_of_all_eq hk2 hkeyeq, eraseKey_of_all_ne hnocat]
        · rcases hcases with hm | hf
          · exact Or.inl hm
          · exact Or.inr ⟨raw, by rw [← hc, hf raw]⟩
  · intro row
    obtain ⟨z, hz⟩ : ∃ z, pyStrOf (pyOrDefault (pyGetOr row "category" "Category")
        (Value.str [])) = z := ⟨_, rfl⟩
    obtain ⟨std, hstd⟩ : ∃ w, p4StdOf (strip (lowerS z)) = w := ⟨_, rfl⟩
    obtain ⟨hne, hfixv⟩ := p4StdOf_fixed z
    rw [hstd] at hne hfixv
    have hfalse : pyFalsy (Value.str std) = false := by
      cases std with
      | nil => exact absurd rfl hne
      | cons a as => rfl
    unfold p4_standardize_category_names
    rw [hz, hstd]
    have hget : pyGetOr (setKey row "category" (Value.str std)) "category" "Category" =
        some (Value.str std) := by
      unfold pyGetOr
      rw [getKey_setKey_self]
      dsimp only
      rw [hfalse, if_neg Bool.false_ne_true]
    rw [hget]
    have hdef : pyOrDefault (some (Value.str std)) (Value.str []) = Value.str std := by
      unfold pyOrDefault
      dsimp only
      rw [hfalse, if_neg Bool.false_ne_true]
    rw [hdef, show pyStrOf (Value.str std) = std from rfl, hfixv]
    exact setKey_of_all_eq (by unfold hasKey; rw [getKey_setKey_self]; rfl)
      (fun p hp hpk => mem_setKey_key_eq hp hpk)

/-- Concrete instance of C4: standardizing the already-standardized form of a
record with category `subscr` returns it unchanged. -/
theorem c4_standardize_category_idempotent_witness :
    standardize_category_names c4Out = Except.ok c4Out :=
  (c4_standardize_category_idempotent.1 c4Row c4Out (by decide)).1

/-! ## Date parsing lemmas (C5) -/

theorem splitSep_cons (sep c : Nat) (cs : PyStr) :
    splitSep sep (c :: cs) =
      if c = sep then [] :: splitSep sep cs
      else match splitSep sep cs with
        | [] => [[c]]
        | g :: gs => (c :: g) :: gs := rfl

theorem splitSep_no_sep {sep : Nat} {s : PyStr} (h : ∀ c ∈ s, c ≠ sep) :
    splitSep sep s = [s] := by
  induction s with
  | nil => rfl
  | cons c cs ih =>
    rw [splitSep_cons, if_neg (h c (List.mem_cons_self c cs)),
      ih (fun x hx => h x (List.mem_cons_of_mem c hx))]

theorem splitSep_append (sep : Nat) (xs ys : PyStr) (h : ∀ c ∈ xs, c ≠ sep) :
    splitSep sep (xs ++ sep :: ys) = xs :: splitSep sep ys := by
  induction xs with
  | nil =>
    rw [List.nil_append, splitSep_cons, if_pos rfl]
  | cons c cs ih =>
    rw [List.cons_append, splitSep_cons, if_neg (h c (List.mem_cons_self c cs)),
      ih (fun x hx => h x (List.mem_cons_of_mem c hx))]

theorem isDigit_mod (k : Nat) : isDigit (48 + k % 10) = true := by
  unfold isDigit
  simp only [Bool.and_eq_true, decide_eq_true_eq]
  omega

theorem year4_pad4 {y : Nat} (h : y ≤ 9999) : year4? (pad4 y) = some y := by
  have hy : year4? (pad4 y) =
      some (digitVal (48 + y / 1000 % 10) * 1000 + digitVal (48 + y / 100 % 10) * 100 +
        digitVal (48 + y / 10 % 10) * 10 + digitVal (48 + y % 10)) := by
    unfold pad4 year4?
    dsimp only
    rw [if_pos (by simp [isDigit_mod])]
  rw [hy]
  simp only [digitVal, Option.some.injEq]
  omega

theorem month_pad2 {m : Nat} (h1 : 1 ≤ m) (h2 : m ≤ 12) : monthGroup? (pad2 m) = some m := by
  have hv : digitVal (48 + m / 10 % 10) * 10 + digitVal (48 + m % 10) = m := by
    simp only [digitVal]
    omega
  unfold pad2 monthGroup?
  dsimp only
  rw [if_pos (by simp [isDigit_mod])]
  rw [hv, if_pos ⟨h1, h2⟩]

theorem day_pad2 {d : Nat} (h1 : 1 ≤ d) (h2 : d ≤ 31) : dayGroup? (pad2 d) = some d := by
  have hv : digitVal (48 + d / 10 % 10) * 10 + digitVal (48 + d % 10) = d := by
    simp only [digitVal]
    omega
  unfold pad2 dayGroup?
  dsimp only
  rw [if_pos (by simp [isDigit_mod])]
  rw [hv, if_pos ⟨h1, h2⟩]

theorem isSpace_digitChar (k : Nat) : isSpace (48 + k % 10) = false := by
  rw [Bool.eq_false_iff]
  intro hc
  simp only [isSpace, Bool.or_eq_true, Bool.and_eq_true, beq_iff_eq,
    decide_eq_true_eq] at hc
  omega

theorem pad2_mem {m c : Nat} (h : c ∈ pad2 m) :
    c = 48 + m / 10 % 10 ∨ c = 48 + m % 10 := by
  simpa [pad2] using h

theorem pad4_mem {y c : Nat} (h : c ∈ pad4 y) :
    c = 48 + y / 1000 % 10 ∨ c = 48 + y / 100 % 10 ∨ c = 48 + y / 10 % 10 ∨
      c = 48 + y % 10 := by
  simpa [pad4] using h

theorem formatIso_no_space (dt : Date) : ∀ c ∈ formatIso dt, isSpace c = false := by
  intro c hc
  unfold formatIso at hc
  rcases List.mem_append.1 hc with h4 | hrest
  · rcases pad4_mem h4 with rfl | rfl | rfl | rfl <;> exact isSpace_digitChar _
  · rcases List.mem_cons.1 hrest with rfl | hrest2
    · rfl
    · rcases List.mem_append.1 hrest2 with h2 | hrest3
      · rcases pad2_mem h2 with rfl | rfl <;> exact isSpace_digitChar _
      · rcases List.mem_cons.1 hrest3 with rfl | h2
        · rfl
        · rcases pad2_mem h2 with rfl | rfl <;> exact isSpace_digitChar _

theorem dropTrailSpace_no_space {s : PyStr} (h : ∀ c ∈ s, isSpace c = false) :
    dropTrailSpace s = s := by
  induction s with
  | nil => rfl
  | cons c cs ih =>
    rw [dropTrailSpace_cons, ih (fun x hx => h x (List.mem_cons_of_mem c hx)),
      h c (List.mem_cons_self c cs)]
    rfl

theorem strip_no_space {s : PyStr} (h : ∀ c ∈ s, isSpace c = false) : strip s = s := by
  unfold strip
  rw [dropWhile_eq_self_of_head (fun c hc => h c (by
    cases s with
    | nil => exact absurd hc (by simp)
    | cons a as =>
      rw [List.head?_cons] at hc
      rw [← Option.some.inj hc]
      exact List.mem_cons_self a as)),
    dropTrailSpace_no_space h]

theorem formatIso_ne_nil (dt : Date) : formatIso dt ≠ [] := by
  unfold formatIso pad4
  simp

theorem pad2_ne_dash {m c : Nat} (h : c ∈ pad2 m) : c ≠ 45 := by
  rcases pad2_mem h with rfl | rfl <;> omega

theorem pad4_ne_dash {y c : Nat} (h : c ∈ pad4 y) : c ≠ 45 := by
  rcases pad4_mem h with rfl | rfl | rfl | rfl <;> omega

theorem splitSep_formatIso (dt : Date) :
    splitSep 45 (formatIso dt) = [pad4 dt.year, pad2 dt.month, pad2 dt.day] := by
  unfold formatIso
  rw [splitSep_append 45 (pad4 dt.year) _ (fun c hc => pad4_ne_dash hc),
    splitSep_append 45 (pad2 dt.month) _ (fun c hc => pad2_ne_dash hc),
    splitSep_no_sep (fun c hc => pad2_ne_dash hc)]

theorem validDate_bounds {dt : Date} (h : validDate dt = true) :
    1 ≤ dt.year ∧ dt.year ≤ 9999 ∧ 1 ≤ dt.month ∧ dt.month ≤ 12 ∧ 1 ≤ dt.day ∧
      dt.day ≤ daysInMonth dt.year dt.month := by
  unfold validDate at h
  simp only [Bool.and_eq_true, decide_eq_true_eq] at h
  tauto

/-- Formatting a valid date back through the ISO format parses to the same
date under the first format. -/
theorem strptime_formatIso {dt : Date} (h : validDate dt = true) :
    strptime DFmt.ymdDash (formatIso dt) = some dt := by
  obtain ⟨h1, h2, h3, h4, h5, h6⟩ := validDate_bounds h
  have hday31 : dt.day ≤ 31 := by
    have : daysInMonth dt.year dt.month ≤ 31 := by
      unfold daysInMonth
      split_ifs <;> omega
    omega
  unfold strptime
  rw [splitSep_formatIso]
  dsimp only
  rw [year4_pad4 h2, month_pad2 h3 h4, day_pad2 h5 hday31]
  unfold buildDate
  dsimp only
  rw [if_pos (show validDate ⟨dt.year, dt.month, dt.day⟩ = true from h)]

theorem tryFormats_cons (f : DFmt) (fs : List DFmt) (s : PyStr) :
    tryFormats (f :: fs) s =
      match strptime f s with
      | some dt => some dt
      | Option.none => tryFormats fs s := rfl

theorem tryFormats_none {s : PyStr} : ∀ {fs : List DFmt},
    (∀ f ∈ fs, strptime f s = Option.none) → tryFormats fs s = Option.none := by
  intro fs
  induction fs with
  | nil => intro h; rfl
  | cons f rest ih =>
    intro h
    rw [tryFormats_cons, h f (List.mem_cons_self f rest)]
    exact ih (fun x hx => h x (List.mem_cons_of_mem f hx))

theorem tryFormats_append {s : PyStr} {dt : Date} (fs₁ : List DFmt) (f : DFmt)
    (fs₂ : List DFmt) (hmiss : ∀ g ∈ fs₁, strptime g s = Option.none)
    (hhit : strptime f s = some dt) :
    tryFormats (fs₁ ++ f :: fs₂) s = some dt := by
  induction fs₁ with
  | nil =>
    rw [List.nil_append, tryFormats_cons, hhit]
  | cons g rest ih =>
    rw [List.cons_append, tryFormats_cons, hmiss g (List.mem_cons_self g rest)]
    exact ih (fun x hx => hmiss x (List.mem_cons_of_mem g hx))

theorem buildDate_valid {y? m? d? : Option Nat} {dt : Date}
    (h : buildDate y? m? d? = some dt) : validDate dt = true := by
  cases y? with
  | none => simp [buildDate] at h
  | some y =>
    cases m? with
    | none => simp [buildDate] at h
    | some m =>
      cases d? with
      | none => simp [buildDate] at h
      | some d =>
        unfold buildDate at h
        dsimp only at h
        by_cases hv : validDate ⟨y, m, d⟩ = true
        · rw [if_pos hv] at h
          rw [← Option.some.inj h]
          exact hv
        · rw [if_neg hv] at h
          exact absurd h (by simp)

theorem strptime_valid {f : DFmt} {s : PyStr} {dt : Date}
    (h : strptime f s = some dt) : validDate dt = true := by
  unfold strptime at h
  cases f with
  | ymdDash =>
    revert h
    rcases splitSep 45 s with _ | ⟨a, _ | ⟨b, _ | ⟨c, _ | ⟨d, rest⟩⟩⟩⟩ <;> intro h
    · exact absurd h (by simp)
    · exact absurd h (by simp)
    · exact absurd h (by simp)
    · exact buildDate_valid h
    · exact absurd h (by simp)
  | ymdSlash =>
    revert h
    rcases splitSep 47 s with _ | ⟨a, _ | ⟨b, _ | ⟨c, _ | ⟨d, rest⟩⟩⟩⟩ <;> intro h
    · exact absurd h (by simp)
    · exact absurd h (by simp)
    · exact absurd h (by simp)
    · exact buildDate_valid h
    · exact absurd h (by simp)
  | mdySlash =>
    revert h
    rcases splitSep 47 s with _ | ⟨a, _ | ⟨b, _ | ⟨c, _ | ⟨d, rest⟩⟩⟩⟩ <;> intro h
    · exact absurd h (by simp)
    · exact absurd h (by simp)
    · exact absurd h (by simp)
    · exact buildDate_valid h
    · exact absurd h (by simp)
  | mdyDash =>
    revert h
    rcases splitSep 45 s with _ | ⟨a, _ | ⟨b, _ | ⟨c, _ | ⟨d, rest⟩⟩⟩⟩ <;> intro h
    · exact absurd h (by simp)
    · exact absurd h (by simp)
    · exact absurd h (by simp)
    · exact buildDate_valid h
    · exact absurd h (by simp)

theorem tryFormats_valid : ∀ {fs : List DFmt} {s : PyStr} {dt : Date},
    tryFormats fs s = some dt → validDate dt = true := by
  intro fs
  induction fs with
  | nil =>
    intro s dt h
    exact absurd h (by simp [tryFormats])
  | cons f rest ih =>
    intro s dt h
    rw [tryFormats_cons] at h
    cases hs : strptime f s with
    | none =>
      rw [hs] at h
      exact ih h
    | some dt2 =>
      rw [hs] at h
      have h2 : dt2 = dt := Option.some.inj h
      rw [← h2]
      exact strptime_valid hs

/-- Reduction of `normalize_date_format` past a found, non-`None` value. -/
theorem normalize_some {row : Rec} {raw : Value} (hg : get2 row "date" "Date" = some raw)
    (hraw : raw ≠ Value.none) :
    normalize_date_format row =
      (if strip (pyStrOf raw) = [] then
        Except.error (CleanErr.valueErr "date cannot be empty")
      else match tryFormats dateFormats (strip (pyStrOf raw)) with
        | Option.none => Except.error (CleanErr.valueErr "unsupported date format")
        | some dt =>
          Except.ok (eraseKey (setKey row "date" (Value.str (formatIso dt))) "Date")) := by
  unfold normalize_date_format
  rw [hg]
  cases raw with
  | none => exact absurd rfl hraw
  | str s => rfl
  | num q => rfl

/-- Inversion: a successful normalization writes back some valid date in ISO
form and removes the capitalized key. -/
theorem normalize_ok_shape {row out : Rec} (h : normalize_date_format row = Except.ok out) :
    ∃ dt : Date, validDate dt = true ∧
      out = eraseKey (setKey row "date" (Value.str (formatIso dt))) "Date" := by
  cases hg : get2 row "date" "Date" with
  | none =>
    unfold normalize_date_format at h
    rw [hg] at h
    exact absurd h (by simp)
  | some raw =>
    by_cases hraw : raw = Value.none
    · subst hraw
      unfold normalize_date_format at h
      rw [hg] at h
      exact absurd h (by simp)
    · rw [normalize_some hg hraw] at h
      by_cases hemp : strip (pyStrOf raw) = []
      · rw [if_pos hemp] at h
        exact absurd h (by simp)
      · rw [if_neg hemp] at h
        cases htf : tryFormats dateFormats (strip (pyStrOf raw)) with
        | none =>
          rw [htf] at h
          exact absurd h (by simp)
        | some dt =>
          rw [htf] at h
          exact ⟨dt, tryFormats_valid htf, (Except.ok.inj h).symm⟩

/-- A date value already in valid ISO form is parsed by the first format and
written back unchanged. -/
theorem normalize_roundtrip {row : Rec} {dt : Date} (hv : validDate dt = true)
    (hget : getKey row "date" = some (Value.str (formatIso dt))) :
    normalize_date_format row =
      Except.ok (eraseKey (setKey row "date" (Value.str (formatIso dt))) "Date") := by
  have hg : get2 row "date" "Date" = some (Value.str (formatIso dt)) := by
    unfold get2
    rw [hget]
  have hstrip : strip (pyStrOf (Value.str (formatIso dt))) = formatIso dt :=
    strip_no_space (formatIso_no_space dt)
  rw [normalize_some hg (by intro hh; exact Value.noConfusion hh), hstrip,
    if_neg (formatIso_ne_nil dt)]
  have htf : tryFormats dateFormats (formatIso dt) = some dt := by
    rw [show dateFormats = DFmt.ymdDash :: [DFmt.ymdSlash, DFmt.mdySlash, DFmt.mdyDash]
      from rfl, tryFormats_cons, strptime_formatIso hv]
  rw [htf]

/-- C5: `normalize_date_format` reads the date at `date`, else `Date`;
it raises a `KeyError` when neither key is present, a `ValueError` when the
value is `None` or strips to empty, and a `ValueError` when no format in the
ordered list `%Y-%m-%d`, `%Y/%m/%d`, `%m/%d/%Y`, `%m-%d-%Y` parses; the
first format that parses wins and its date is written to `date` in ISO form
with the `Date` key removed, every successful output carries a valid date in
ISO `YYYY-MM-DD` form, and an input value already in ISO form is written
back unchanged. -/
theorem c5_normalize_date_format :
    (∀ row : Rec, getKey row "date" = Option.none → getKey row "Date" = Option.none →
      normalize_date_format row = Except.error (CleanErr.keyErr "expected key date or Date")) ∧
    (∀ row : Rec, get2 row "date" "Date" = some Value.none →
      normalize_date_format row = Except.error (CleanErr.valueErr "date value is None")) ∧
    (∀ (row : Rec) (raw : Value), get2 row "date" "Date" = some raw → raw ≠ Value.none →
      strip (pyStrOf raw) = [] →
      normalize_date_format row = Except.error (CleanErr.valueErr "date cannot be empty")) ∧
    (∀ (row : Rec) (raw : Value), get2 row "date" "Date" = some raw → raw ≠ Value.none →
      strip (pyStrOf raw) ≠ [] →
      (∀ f ∈ dateFormats, strptime f (strip (pyStrOf raw)) = Option.none) →
      normalize_date_format row = Except.error (CleanErr.valueErr "unsupported date format")) ∧
    (∀ (row : Rec) (raw : Value) (fs₁ : List DFmt) (f : DFmt) (fs₂ : List DFmt) (dt : Date),
      get2 row "date" "Date" = some raw → raw ≠ Value.none →
      strip (pyStrOf raw) ≠ [] →
      dateFormats = fs₁ ++ f :: fs₂ →
      (∀ g ∈ fs₁, strptime g (strip (pyStrOf raw)) = Option.none) →
      strptime f (strip (pyStrOf raw)) = some dt →
      normalize_date_format row =
        Except.ok (eraseKey (setKey row "date" (Value.str (formatIso dt))) "Date")) ∧
    (∀ row out : Rec, normalize_date_format row = Except.ok out →
      ∃ dt : Date, validDate dt = true ∧
        getKey out "date" = some (Value.str (formatIso dt)) ∧
        getKey out "Date" = Option.none) ∧
    (∀ (row : Rec) (dt : Date), validDate dt = true →
      getKey row "date" = some (Value.str (formatIso dt)) →
      normalize_date_format row =
        Except.ok (eraseKey (setKey row "date" (Value.str (formatIso dt))) "Date")) := by
  refine ⟨?_, ?_, ?_, ?_, ?_, ?_, ?_⟩
  · intro row h1 h2
    have hg : get2 row "date" "Date" = Option.none := by
      unfold get2
      rw [h1, h2]
    unfold normalize_date_format
    rw [hg]
  · intro row hg
    unfold normalize_date_format
    rw [hg]
  · intro row raw hg hraw hemp
    rw [normalize_some hg hraw, if_pos hemp]
  · intro row raw hg hraw hne hall
    rw [normalize_some hg hraw, if_neg hne, tryFormats_none hall]
  · intro row raw fs₁ f fs₂ dt hg hraw hne hdec hmiss hhit
    rw [normalize_some hg hraw, if_neg hne, hdec, tryFormats_append fs₁ f fs₂ hmiss hhit]
  · intro row out h
    obtain ⟨dt, hv, hout⟩ := normalize_ok_shape h
    refine ⟨dt, hv, ?_, ?_⟩
    · rw [hout, getKey_eraseKey_ne _ (by decide), getKey_setKey_self]
    · rw [hout, getKey_eraseKey_self]
  · exact fun row dt hv hget => normalize_roundtrip hv hget

/-- Concrete instance of C5: a record whose date is already `2025-01-02`
normalizes successfully with the date value unchanged. -/
theorem c5_normalize_date_format_witness :
    normalize_date_format c5Row =
      Except.ok (eraseKey (setKey c5Row "date" (Value.str (formatIso ⟨2025, 1, 2⟩))) "Date") :=
  c5_normalize_date_format.2.2.2.2.2.2 c5Row ⟨2025, 1, 2⟩ (by decide) (by decide)

/-! ## Deduplication vs. normalization (C3) -/

/-- Inversion: a successful description cleaning only rewrites the
description-family keys. -/
theorem clean_ok_shape {row out : Rec}
    (h : clean_transaction_description row = Except.ok out) :
    ∃ d : PyStr,
      out = eraseKey (eraseKey (setKey row "description" (Value.str d))
        "Description") "source" := by
  cases hg : get3 row "description" "Description" "source" with
  | none =>
    unfold clean_transaction_description at h
    rw [hg] at h
    exact absurd h (by simp)
  | some raw =>
    unfold clean_transaction_description at h
    rw [hg] at h
    dsimp only at h
    by_cases h1 : joinSpace (splitWS (strip (pyStrOf raw))) = []
    · rw [if_pos h1] at h
      exact absurd h (by simp)
    · rw [if_neg h1] at h
      by_cases h2 : strip (joinSpace (stripTrailingCode (splitSep 32
          (joinSpace (splitWS (strip (pyStrOf raw))))))) = []
      · rw [if_pos h2] at h
        exact absurd h (by simp)
      · rw [if_neg h2] at h
        exact ⟨_, (Except.ok.inj h).symm⟩

/-- Inversion: a successful standardization writes the standardized category
and removes the capitalized key. -/
theorem standardize_ok_shape {row out : Rec}
    (h : standardize_category_names row = Except.ok out) :
    ∃ raw : Value, get2 row "category" "Category" = some raw ∧
      lowerS (strip (pyStrOf raw)) ≠ [] ∧
      out = eraseKey (setKey row "category"
        (Value.str (stdOf (lowerS (strip (pyStrOf raw))) raw))) "Category" := by
  cases hg : get2 row "category" "Category" with
  | none =>
    unfold standardize_category_names at h
    rw [hg] at h
    exact absurd h (by simp)
  | some raw =>
    unfold standardize_category_names at h
    rw [hg] at h
    dsimp only at h
    by_cases hne : lowerS (strip (pyStrOf raw)) = []
    · rw [if_pos hne] at h
      exact absurd h (by simp)
    · rw [if_neg hne] at h
      exact ⟨raw, rfl, hne, (Except.ok.inj h).symm⟩

/-- Evaluation of a successful standardization. -/
theorem standardize_eval {row : Rec} {raw : Value}
    (hg : get2 row "category" "Category" = some raw)
    (hne : lowerS (strip (pyStrOf raw)) ≠ []) :
    standardize_category_names row = Except.ok (eraseKey (setKey row "category"
      (Value.str (stdOf (lowerS (strip (pyStrOf raw))) raw))) "Category") := by
  unfold standardize_category_names
  rw [hg]
  dsimp only
  rw [if_neg hne]

theorem get2_congr {a b : Rec} {k₁ k₂ : String} (h1 : getKey a k₁ = getKey b k₁)
    (h2 : getKey a k₂ = getKey b k₂) : get2 a k₁ k₂ = get2 b k₁ k₂ := by
  unfold get2
  rw [h1, h2]

theorem centsOf_congr {a b : Rec}
    (h : get2 a "amount" "Amount" = get2 b "amount" "Amount") :
    centsOf a = centsOf b := by
  unfold centsOf
  rw [h]

theorem accountKeyOf_congr {a b : Rec}
    (h : get2 a "account" "Account" = get2 b "account" "Account") :
    accountKeyOf a = accountKeyOf b := by
  unfold accountKeyOf
  rw [h]

/-- The dedup key is stable under the three normalization passes whenever
they succeed and the cleaned description is itself clean-stable. -/
theorem cleanRec_key_stable {r r₃ : Rec} (h : cleanRec r = Except.ok r₃)
    (hdesc : descKeyOf r₃ = descKeyOf r) :
    dedupKey r₃ = dedupKey r := by
  unfold cleanRec at h
  cases hn : normalize_date_format r with
  | error e =>
    rw [hn] at h
    exact absurd h (by simp)
  | ok r₁ =>
    rw [hn] at h
    dsimp only at h
    cases hc : clean_transaction_description r₁ with
    | error e =>
      rw [hc] at h
      exact absurd h (by simp)
    | ok r₂ =>
      rw [hc] at h
      have hs : standardize_category_names r₂ = Except.ok r₃ := h
      obtain ⟨dt, hv, hr₁⟩ := normalize_ok_shape hn
      obtain ⟨dd, hr₂⟩ := clean_ok_shape hc
      obtain ⟨craw, hcg, hcne, hr₃⟩ := standardize_ok_shape hs
      have t1 : ∀ k : String, k ≠ "date" → k ≠ "Date" → getKey r₁ k = getKey r k := by
        intro k hk1 hk2
        rw [hr₁, getKey_eraseKey_ne _ hk2, getKey_setKey_ne _ _ hk1]
      have t1d : getKey r₁ "date" = some (Value.str (formatIso dt)) := by
        rw [hr₁, getKey_eraseKey_ne _ (by decide), getKey_setKey_self]
      have t2 : ∀ k : String, k ≠ "description" → k ≠ "Description" → k ≠ "source" →
          getKey r₂ k = getKey r₁ k := by
        intro k h1 h2 h3
        rw [hr₂, getKey_eraseKey_ne _ h3, getKey_eraseKey_ne _ h2,
          getKey_setKey_ne _ _ h1]
      have t3 : ∀ k : String, k ≠ "category" → k ≠ "Category" →
          getKey r₃ k = getKey r₂ k := by
        intro k h1 h2
        rw [hr₃, getKey_eraseKey_ne _ h2, getKey_setKey_ne _ _ h1]
      have t31 : ∀ k : String, k ≠ "category" → k ≠ "Category" → k ≠ "description" →
          k ≠ "Description" → k ≠ "source" → k ≠ "date" → k ≠ "Date" →
          getKey r₃ k = getKey r k := fun k h1 h2 h3 h4 h5 h6 h7 =>
        (t3 k h1 h2).trans ((t2 k h3 h4 h5).trans (t1 k h6 h7))
      have hdate3 : getKey r₃ "date" = some (Value.str (formatIso dt)) := by
        rw [t3 _ (by decide) (by decide), t2 _ (by decide) (by decide) (by decide), t1d]
      have hdkr : dateKeyOf r = formatIso dt := by
        unfold dateKeyOf
        rw [hn]
        dsimp only
        rw [t1d]
        rfl
      have hnorm3 := normalize_roundtrip hv hdate3
      have hdk3 : dateKeyOf r₃ = formatIso dt := by
        unfold dateKeyOf
        rw [hnorm3]
        dsimp only
        rw [getKey_eraseKey_ne _ (by decide), getKey_setKey_self]
        rfl
      have hcents : centsOf r₃ = centsOf r := centsOf_congr (get2_congr
        (t31 "amount" (by decide) (by decide) (by decide) (by decide) (by decide)
          (by decide) (by decide))
        (t31 "Amount" (by decide) (by decide) (by decide) (by decide) (by decide)
          (by decide) (by decide)))
      have hacc : accountKeyOf r₃ = accountKeyOf r := accountKeyOf_congr (get2_congr
        (t31 "account" (by decide) (by decide) (by decide) (by decide) (by decide)
          (by decide) (by decide))
        (t31 "Account" (by decide) (by decide) (by decide) (by decide) (by decide)
          (by decide) (by decide)))
      have hgcat : getKey r₂ "category" = getKey r "category" :=
        (t2 _ (by decide) (by decide) (by decide)).trans (t1 _ (by decide) (by decide))
      have hgCat : getKey r₂ "Category" = getKey r "Category" :=
        (t2 _ (by decide) (by decide) (by decide)).trans (t1 _ (by decide) (by decide))
      have hcg_r : get2 r "category" "Category" = some craw := by
        rw [← get2_congr hgcat hgCat]
        exact hcg
      obtain ⟨cstar, hcstar⟩ :
          ∃ x, stdOf (lowerS (strip (pyStrOf craw))) craw = x := ⟨_, rfl⟩
      have hstd_r := standardize_eval hcg_r hcne
      rw [hcstar] at hstd_r hr₃
      have hck_r : catKeyOf r = cstar := by
        unfold catKeyOf
        rw [hstd_r]
        dsimp only
        rw [getKey_eraseKey_ne _ (by decide), getKey_setKey_self]
        rfl
      have hcat3 : getKey r₃ "category" = some (Value.str cstar) := by
        rw [hr₃, getKey_eraseKey_ne _ (by decide), getKey_setKey_self]
      obtain ⟨hs2ne, hs2fix⟩ := stdOf_fixed rfl hcne
      rw [hcstar] at hs2ne hs2fix
      have hg23 : get2 r₃ "category" "Category" = some (Value.str cstar) := by
        unfold get2
        rw [hcat3]
      have hstd3 := standardize_eval hg23
        (show lowerS (strip (pyStrOf (Value.str cstar))) ≠ [] from hs2ne)
      have hck3 : catKeyOf r₃ = cstar := by
        unfold catKeyOf
        rw [hstd3]
        dsimp only
        rw [getKey_eraseKey_ne _ (by decide), getKey_setKey_self]
        exact hs2fix
      unfold dedupKey
      rw [hdk3, hdkr, hcents, hacc, hdesc, hck3, hck_r]

/-- C3 fails as stated: on these two records every normalization pass
succeeds, yet deduplicating before the passes keeps both records while
deduplicating after them keeps only the first — the cleaned description of
the first record collides with the second only after cleaning is applied a
second time. -/
theorem c3_counterexample_dedup_order :
    cleanRec c3R1 = Except.ok c3C1 ∧ cleanRec c3R2 = Except.ok c3C2 ∧
    (remove_duplicate_transactions [c3R1, c3R2]).length = 2 ∧
    (remove_duplicate_transactions (List.map cleanRecD [c3R1, c3R2])).length = 1 ∧
    remove_duplicate_transactions (List.map cleanRecD [c3R1, c3R2]) ≠
      List.map cleanRecD (remove_duplicate_transactions [c3R1, c3R2]) := by
  refine ⟨by decide, by decide, by decide, by decide, by decide⟩

/-- C3 amended: the deduplicator never alters records — its output is a
sublist of the original input records — and it commutes with the
normalization passes on every batch whose records all normalize successfully
and whose cleaned descriptions are stable under a second cleaning; without
that stability the order matters, as the counterexample shows. -/
theorem c3_dedup_normalization_commutes :
    (∀ rows : List Rec, List.Sublist (remove_duplicate_transactions rows) rows) ∧
    (∀ rows : List Rec,
      (∀ r ∈ rows, ∃ c, cleanRec r = Except.ok c) →
      (∀ r ∈ rows, descKeyOf (cleanRecD r) = descKeyOf r) →
      remove_duplicate_transactions (rows.map cleanRecD) =
        (remove_duplicate_transactions rows).map cleanRecD) := by
  constructor
  · intro rows
    exact dedupByGo_sublist dedupKey rows []
  · intro rows hok hdesc
    unfold remove_duplicate_transactions dedupBy
    apply dedupByGo_map_comm
    intro a ha
    obtain ⟨c, hc⟩ := hok a ha
    have hcd : cleanRecD a = c := by
      unfold cleanRecD
      rw [hc]
    rw [hcd]
    have hdesc2 := hdesc a ha
    rw [hcd] at hdesc2
    exact cleanRec_key_stable hc hdesc2

/-- Concrete instance of the amended C3: a batch with a clean-stable
description commutes with the pipeline. -/
theorem c3_dedup_normalization_commutes_witness :
    remove_duplicate_transactions (List.map cleanRecD [c3W]) =
      List.map cleanRecD (remove_duplicate_transactions [c3W]) :=
  c3_dedup_normalization_commutes.2 [c3W]
    (fun r hr => by
      rw [List.mem_singleton.1 hr]
      exact ⟨cleanRecD c3W, by decide⟩)
    (fun r hr => by
      rw [List.mem_singleton.1 hr]
      decide)

end FinTracker
